import Mathlib

/-!
Verification of the esperanto-analyzer morphological analysis engine.

Words and sentences are modelled as `List Char` (JavaScript strings over the
basic multilingual plane, where every character of the Esperanto alphabet is a
single UTF-16 unit, so JS `length`/index arithmetic coincides with list
length).  Each regular-expression match predicate of the source is translated
to an equivalent executable predicate; JS exceptions are modelled with
`Except`/`Option`; JS numbers are modelled by `ℚ` (all confidence arithmetic
in the source is over small decimal fractions, and no comparison or claimed
value is affected by double rounding).

Source files embedded here: src/src/analyzers/morphological/{base,noun,verb,
adjective,adverb,article,conjunction,interjection,numeral,preposition,
pronoun}.ts, src/src/analyzers/morphological-analyzer.ts,
src/src/analyzers/morphological-sentence-analyzer.ts, src/src/speech/index.ts,
src/src/index.ts.
-/

namespace EsperantoAnalyzer

/-! ### Data model (src/src/types/index.ts) -/

inductive PartOfSpeech where
  | Noun | Verb | Adjective | Adverb | Pronoun | Preposition | Conjunction
  | Interjection | Article | Numeral | Unknown | Undefined
deriving DecidableEq, Repr

inductive VerbTense where
  | present | past | future | conditional | infinitive
deriving DecidableEq, Repr

inductive VerbMood where
  | indicative | imperative | conditional | infinitive | participle
deriving DecidableEq, Repr

/-- Morphological features of a word.  The source record also carries
part-of-speech specific annotation fields (`agreement`, `pronounType`,
`isPossessive`, `numeralType`, `semanticCategory`, `isSpecial`,
`hasExclamation`, `isCompound`, …).  Those fields are write-only decorations:
they influence no control flow of the engine and no claim mentions them, so
they are not modelled. -/
structure MorphologicalFeatures where
  isPlural : Bool
  isAccusative : Bool
  root : Option (List Char) := none
  tense : Option VerbTense := none
  mood : Option VerbMood := none
deriving DecidableEq, Repr

/-- Options of `MorphologicalAnalyzer.analyze` / `analyzeAll`
(`includeFeatures`, `strictMode`, `optimized`); only `includeFeatures` is ever
read (in `BaseMorphologicalAnalyzer.extractMorphology`). -/
structure AnalysisOptions where
  includeFeatures : Bool := false
  strictMode : Bool := false
  optimized : Bool := false
deriving DecidableEq, Repr

/-- `getDefaultOptions` of MorphologicalAnalyzer. -/
def getDefaultOptions : AnalysisOptions :=
  { includeFeatures := true, strictMode := false, optimized := true }

/-- The word value object produced by the `createWord` factory of
src/src/speech/index.ts: a tagged surface string (`Noun`, `Verb`, …,
`UndefinedWord`). -/
structure WordInst where
  value : List Char
  tag : PartOfSpeech
deriving DecidableEq, Repr

/-- An analysis result as produced for an alternative (whose own
`alternatives` array is always empty in the source, see
`getAlternatives`/`analyzeAll`). -/
structure WordResult where
  word : List Char
  partOfSpeech : PartOfSpeech
  morphology : Option MorphologicalFeatures
  wordInstance : Option WordInst
  confidence : Option ℚ
  analyzer : List Char
deriving DecidableEq, Repr

/-- A full `AnalysisResult`.  In the source the `alternatives` entries are
themselves `AnalysisResult`s whose `alternatives` arrays are always empty
(`getAlternatives` and `analyzeAll` construct them with `alternatives: []`),
so the nesting is modelled at its actual depth of one. -/
structure AnalysisResult extends WordResult where
  alternatives : List WordResult
deriving DecidableEq, Repr

/-- Decidable equality of analysis outcomes (used only to evaluate the model
on concrete inputs). -/
instance {ε α : Type} [DecidableEq ε] [DecidableEq α] :
    DecidableEq (Except ε α)
  | .error e, .error f =>
    if h : e = f then .isTrue (by rw [h])
    else .isFalse (by intro hh; cases hh; exact h rfl)
  | .error _, .ok _ => .isFalse (by intro h; cases h)
  | .ok _, .error _ => .isFalse (by intro h; cases h)
  | .ok a, .ok b =>
    if h : a = b then .isTrue (by rw [h])
    else .isFalse (by intro hh; cases hh; exact h rfl)

/-! ### Character helpers -/

/-- The six lowercase circumflexed/breved Esperanto letters. -/
def esperantoLowers : List Char := ['ĉ', 'ĝ', 'ĵ', 'ĥ', 'ŝ', 'ŭ']

/-- The six uppercase circumflexed/breved Esperanto letters. -/
def esperantoUppers : List Char := ['Ĉ', 'Ĝ', 'Ĵ', 'Ĥ', 'Ŝ', 'Ŭ']

/-- The regex character class `[a-zA-ZĉĝĵĥŝŭĈĜĴĤŜŬ]` used by the noun, verb
and adjective patterns and the canonical-shape patterns of
`calculateConfidence`. -/
def littera (c : Char) : Bool :=
  ('a' ≤ c && c ≤ 'z') || ('A' ≤ c && c ≤ 'Z') ||
    esperantoLowers.contains c || esperantoUppers.contains c

/-- The lowercase class `[a-zĉĝĵĥŝŭ]` used by the adverb analyzer. -/
def litteraMinuskla (c : Char) : Bool :=
  ('a' ≤ c && c ≤ 'z') || esperantoLowers.contains c

/-- JS `String.prototype.toLowerCase`, restricted to the characters the
engine's vocabulary uses (ASCII letters and the Esperanto letters); all other
characters are left unchanged.  Exotic Unicode case foldings outside this
range cannot change the outcome of any claim. -/
def lowerChar (c : Char) : Char :=
  if 'A' ≤ c && c ≤ 'Z' then Char.ofNat (c.toNat + 32)
  else if c = 'Ĉ' then 'ĉ'
  else if c = 'Ĝ' then 'ĝ'
  else if c = 'Ĵ' then 'ĵ'
  else if c = 'Ĥ' then 'ĥ'
  else if c = 'Ŝ' then 'ŝ'
  else if c = 'Ŭ' then 'ŭ'
  else c

/-- `word.toLowerCase()`. -/
def toLower (l : List Char) : List Char := l.map lowerChar

/-- JS whitespace (`\s`, and the class trimmed by `String.prototype.trim`),
restricted to its common members. -/
def jsWs (c : Char) : Bool :=
  c = ' ' || c = '\t' || c = '\n' || c = '\r' || c = '\x0b' || c = '\x0c'

/-- JS `String.prototype.trim`. -/
def trimL (l : List Char) : List Char :=
  ((l.dropWhile jsWs).reverse.dropWhile jsWs).reverse

/-- JS `String.prototype.endsWith`. -/
def endsWith (l suffix : List Char) : Bool := suffix.isSuffixOf l

/-- JS `String.prototype.startsWith`. -/
def startsWith (l pre : List Char) : Bool := pre.isPrefixOf l

/-- Whether `l` contains `pat` as a contiguous substring (JS
`RegExp.prototype.test` with a literal, unanchored pattern). -/
def containsSub (l pat : List Char) : Bool :=
  l.tails.any (fun t => pat.isPrefixOf t)

/-- Full-match against `root cls{min,} ++ tail`: `l` ends with `tail` and the
remaining prefix has at least `min` characters, all in the class `cls`.  This
is the shape of the anchored noun/verb/adjective/adverb patterns. -/
def matchTail (cls : Char → Bool) (min : Nat) (l tail : List Char) : Bool :=
  endsWith l tail && decide (tail.length + min ≤ l.length) &&
    (l.take (l.length - tail.length)).all cls

/-! ### Shared base behaviour (src/src/analyzers/morphological/base.ts) -/

/-- `BaseMorphologicalAnalyzer.checkPlural`: strip a trailing `n`, then test
for a trailing `j`. -/
def checkPlural (word : List Char) : Bool :=
  let baseWord := if endsWith word ['n'] then word.dropLast else word
  endsWith baseWord ['j']

/-- `BaseMorphologicalAnalyzer.checkAccusative`. -/
def checkAccusative (word : List Char) : Bool := endsWith word ['n']

/-- `BaseMorphologicalAnalyzer.extractMorphology`, parametrised by the
(possibly overridden) plural/accusative checks the dynamic dispatch of the
source selects. -/
def baseExtractMorphology (checkPl checkAcc : List Char → Bool)
    (word : List Char) (options : AnalysisOptions) : MorphologicalFeatures :=
  if !options.includeFeatures then { isPlural := false, isAccusative := false }
  else { isPlural := checkPl word, isAccusative := checkAcc word }

/-! ### Noun analyzer (noun.ts) -/

/-- Noun `matchRegex = /^[a-zA-ZĉĝĵĥŝŭĈĜĴĤŜŬ]{2,}o(j?n?)$/u`: the word is a
root of at least two class letters followed by `o`, `oj`, `on` or `ojn`. -/
def nounMatch (word : List Char) : Bool :=
  [['o'], ['o', 'j'], ['o', 'n'], ['o', 'j', 'n']].any
    (fun t => matchTail littera 2 word t)

/-- `NounMorphologicalAnalyzer.extractRoot`: strip, in this order, a trailing
`n`, then `j`, then `o` (case-preserving). -/
def nounExtractRoot (word : List Char) : List Char :=
  let r1 := if endsWith word ['n'] then word.dropLast else word
  let r2 := if endsWith r1 ['j'] then r1.dropLast else r1
  if endsWith r2 ['o'] then r2.dropLast else r2

/-- `NounMorphologicalAnalyzer.extractMorphology` (the `match` re-check never
fails on the dispatcher's path, where `match` has already succeeded). -/
def nounExtractMorphology (word : List Char) (options : AnalysisOptions) :
    MorphologicalFeatures :=
  { baseExtractMorphology checkPlural checkAccusative word options with
    root := some (nounExtractRoot word) }

/-! ### Verb analyzer (verb.ts) -/

def VERB_ENDINGS : List (List Char) :=
  ["i", "as", "is", "os", "us", "u"].map String.data

def PARTICIPLE_ENDINGS : List (List Char) :=
  ["anta", "ante", "antaj", "antajn", "antan",
   "inta", "inte", "intaj", "intajn", "intan",
   "onta", "onte", "ontaj", "ontajn", "ontan",
   "ata", "ate", "ataj", "atajn", "atan",
   "ita", "ite", "itaj", "itajn", "itan",
   "ota", "ote", "otaj", "otajn", "otan"].map String.data

def ALL_ENDINGS : List (List Char) := VERB_ENDINGS ++ PARTICIPLE_ENDINGS

/-- Verb `matchRegex`: root of at least two class letters followed by one of
the 36 verb/participle endings. -/
def verbMatch (word : List Char) : Bool :=
  ALL_ENDINGS.any (fun e => matchTail littera 2 word e)

/-- `VerbMorphologicalAnalyzer.isParticiple` with a tense marker. -/
def isParticipleWith (tenseMarker word : List Char) : Bool :=
  [tenseMarker ++ ['a'], tenseMarker ++ ['e'], tenseMarker ++ ['a', 'j'],
   tenseMarker ++ ['a', 'j', 'n'], tenseMarker ++ ['a', 'n']].any
    (fun p => endsWith word p)

/-- `VerbMorphologicalAnalyzer.isParticiple` without a tense marker. -/
def isParticiple (word : List Char) : Bool :=
  PARTICIPLE_ENDINGS.any (fun p => endsWith word p)

/-- `VerbMorphologicalAnalyzer.extractTense` (checks `-i` first, then `-us`,
then the indicative endings / participle markers, defaulting to present). -/
def extractTense (word : List Char) : VerbTense :=
  let nw := toLower word
  if endsWith nw ['i'] then .infinitive
  else if endsWith nw ['u', 's'] then .conditional
  else if endsWith nw ['a', 's'] || isParticipleWith ['a', 'n', 't'] nw then .present
  else if endsWith nw ['i', 's'] || isParticipleWith ['i', 'n', 't'] nw then .past
  else if endsWith nw ['o', 's'] || isParticipleWith ['o', 'n', 't'] nw then .future
  else .present

/-- `VerbMorphologicalAnalyzer.extractMood`. -/
def extractMood (word : List Char) : VerbMood :=
  let nw := toLower word
  if endsWith nw ['i'] then .infinitive
  else if endsWith nw ['u', 's'] then .conditional
  else if endsWith nw ['u'] then .imperative
  else if isParticiple nw then .participle
  else .indicative

/-- `VerbMorphologicalAnalyzer.extractRoot`: remove the first ending of
`ALL_ENDINGS` (in declaration order) that the lowercased word ends with. -/
def verbExtractRoot (word : List Char) : List Char :=
  let nw := toLower word
  match ALL_ENDINGS.find? (fun e => endsWith nw e) with
  | some e => nw.take (nw.length - e.length)
  | none => nw

/-- `VerbMorphologicalAnalyzer.checkPlural` (override). -/
def verbCheckPlural (word : List Char) : Bool :=
  let nw := toLower word
  if isParticiple nw then endsWith nw ['a', 'j'] || endsWith nw ['a', 'j', 'n']
  else false

/-- `VerbMorphologicalAnalyzer.checkAccusative` (override). -/
def verbCheckAccusative (word : List Char) : Bool :=
  let nw := toLower word
  if isParticiple nw then endsWith nw ['n'] else false

/-- `VerbMorphologicalAnalyzer.extractMorphology`. -/
def verbExtractMorphology (word : List Char) (options : AnalysisOptions) :
    MorphologicalFeatures :=
  { baseExtractMorphology verbCheckPlural verbCheckAccusative word options with
    tense := some (extractTense word)
    mood := some (extractMood word)
    root := some (verbExtractRoot word) }

/-! ### Adjective analyzer (adjective.ts) -/

/-- Adjective `matchRegex = /^[a-zA-ZĉĝĵĥŝŭĈĜĴĤŜŬ]{2,}a(j?n?)$/u`. -/
def adjectiveMatch (word : List Char) : Bool :=
  [['a'], ['a', 'j'], ['a', 'n'], ['a', 'j', 'n']].any
    (fun t => matchTail littera 2 word t)

/-- `AdjectiveMorphologicalAnalyzer.extractRoot` (lowercases, then strips
`n`, `j`, `a`). -/
def adjectiveExtractRoot (word : List Char) : List Char :=
  let r0 := toLower word
  let r1 := if endsWith r0 ['n'] then r0.dropLast else r0
  let r2 := if endsWith r1 ['j'] then r1.dropLast else r1
  if endsWith r2 ['a'] then r2.dropLast else r2

/-- `AdjectiveMorphologicalAnalyzer.extractMorphology` (the `agreement`
record it adds merely mirrors `isPlural`/`isAccusative` and is not
modelled). -/
def adjectiveExtractMorphology (word : List Char) (options : AnalysisOptions) :
    MorphologicalFeatures :=
  { baseExtractMorphology checkPlural checkAccusative word options with
    root := some (adjectiveExtractRoot word) }

/-! ### Adverb analyzer (src/unnamed/part_000, `AdverbMorphologicalAnalyzer`) -/

def SPECIAL_ADVERBS : List (List Char) :=
  ["nun", "tuj", "jam", "ankoraŭ", "baldaŭ", "hieraŭ", "hodiaŭ", "morgaŭ",
   "tre", "pli", "plej", "tro", "nur", "eĉ", "preskaŭ", "apenaŭ", "ĉirkaŭ",
   "jen", "for", "hejm", "eksteren", "supren", "malsupren", "antaŭen",
   "malantaŭen", "dekstren", "maldekstren", "ien", "nien", "tien",
   "ĉien"].map String.data

/-- `AdverbMorphologicalAnalyzer.isSpecialAdverb`. -/
def isSpecialAdverb (word : List Char) : Bool :=
  SPECIAL_ADVERBS.contains (toLower word)

/-- `AdverbMorphologicalAnalyzer.hasValidEsperantoCharacters`:
`/^[a-zĉĝĵĥŝŭ]+$/u` on the lowercased word. -/
def hasValidEsperantoCharacters (word : List Char) : Bool :=
  let lw := toLower word
  !lw.isEmpty && lw.all litteraMinuskla

/-- Vowels used by the adverb phonology heuristic (`[aeiouĉĝĵĥŝŭ]` is the
complemented class of the 3-consonant test in the source, which — verbatim —
counts the circumflexed letters as vowels). -/
def phonologyVowels : List Char := ['a', 'e', 'i', 'o', 'u', 'ĉ', 'ĝ', 'ĵ', 'ĥ', 'ŝ', 'ŭ']

/-- The ASCII consonant class `[bcdfghjklmnpqrstvwxyz]` of the
double-consonant test. -/
def doubleConsClass : List Char :=
  ['b', 'c', 'd', 'f', 'g', 'h', 'j', 'k', 'l', 'm', 'n', 'p', 'q', 'r',
   's', 't', 'v', 'w', 'x', 'y', 'z']

/-- Three adjacent characters all satisfying `p` (regex `X{3,}`,
unanchored). -/
def hasRun3 (p : Char → Bool) : List Char → Bool
  | a :: b :: c :: rest => (p a && p b && p c) || hasRun3 p (b :: c :: rest)
  | _ => false

/-- An adjacent doubled character from `doubleConsClass`
(regex `/([bcdfghjklmnpqrstvwxyz])\1/`). -/
def hasDoubleConsonant : List Char → Bool
  | a :: b :: rest =>
    (doubleConsClass.contains a && a = b) || hasDoubleConsonant (b :: rest)
  | _ => false

/-- `AdverbMorphologicalAnalyzer.hasValidEsperantoPhonology`. -/
def hasValidEsperantoPhonology (word : List Char) : Bool :=
  let nw := toLower word
  if nw.length < 4 then false
  else if nw.any (fun c => c ∈ ['q', 'w', 'x', 'y']) then false
  else if endsWith nw "ouse".data then false
  else if containsSub nw "tion".data then false
  else if startsWith nw "th".data then false
  else if containsSub nw "ght".data then false
  else if endsWith nw "ple".data then false
  else if endsWith nw "ble".data then false
  else if hasRun3 (fun c => !phonologyVowels.contains c) nw then false
  else if hasDoubleConsonant nw then false
  else true

/-- The adverb `matchRegex` (`'iu'` flags): one of the special adverbs, or a
root of at least two lowercase-class letters followed by `e`, all matched
case-insensitively (modelled on the lowercased word). -/
def adverbRegexMatch (word : List Char) : Bool :=
  let lw := toLower word
  SPECIAL_ADVERBS.contains lw || matchTail litteraMinuskla 2 lw ['e']

/-- `AdverbMorphologicalAnalyzer.match` (override): the regex, then for
non-special adverbs the character and phonology filters. -/
def adverbMatch (word : List Char) : Bool :=
  if !adverbRegexMatch word then false
  else if isSpecialAdverb word then true
  else hasValidEsperantoCharacters word && hasValidEsperantoPhonology word

/-- `AdverbMorphologicalAnalyzer.extractRoot`. -/
def adverbExtractRoot (word : List Char) : List Char :=
  let nw := toLower word
  if isSpecialAdverb nw then nw
  else if endsWith nw ['e'] then nw.dropLast
  else nw

/-- `AdverbMorphologicalAnalyzer.extractMorphology` (forces
`isPlural`/`isAccusative` to false). -/
def adverbExtractMorphology (word : List Char) (options : AnalysisOptions) :
    MorphologicalFeatures :=
  { baseExtractMorphology (fun _ => false) (fun _ => false) word options with
    isPlural := false, isAccusative := false
    root := some (adverbExtractRoot word) }

/-! ### Article analyzer (src/unnamed/part_004, `ArticleMorphologicalAnalyzer`) -/

/-- Article `matchRegex = /^la$/iu`. -/
def articleMatch (word : List Char) : Bool := toLower word = ['l', 'a']

/-- `ArticleMorphologicalAnalyzer.extractMorphology`. -/
def articleExtractMorphology (word : List Char) (options : AnalysisOptions) :
    MorphologicalFeatures :=
  { baseExtractMorphology (fun _ => false) (fun _ => false) word options with
    isPlural := false, isAccusative := false
    root := some ['l', 'a'] }

/-! ### Conjunction analyzer (src/unnamed/part_003, second part) -/

def CONJUNCTIONS : List (List Char) :=
  ["antaŭ kiam", "antaŭ ol", "aŭ", "ĉar", "ĉu", "k", "kaj", "kaŭ", "ke",
   "kial", "kiam", "kie", "kiel", "kune kun", "kvankam", "kvazaŭ", "minus",
   "nek", "ol", "plus", "se", "sed", "tial"].map String.data

/-- Conjunction `matchRegex` (case-insensitive alternation of the list). -/
def conjunctionMatch (word : List Char) : Bool :=
  CONJUNCTIONS.contains (toLower word)

/-- `ConjunctionMorphologicalAnalyzer.extractMorphology`. -/
def conjunctionExtractMorphology (word : List Char) (options : AnalysisOptions) :
    MorphologicalFeatures :=
  { baseExtractMorphology (fun _ => false) (fun _ => false) word options with
    isPlural := false, isAccusative := false
    root := some (toLower word) }

/-! ### Interjection analyzer (noun.ts file, second part) -/

def INTERJECTIONS : List (List Char) :=
  ["aĥ!", "aj!", "ba!", "baf!", "baj!", "be!", "bis!", "diable!", "ek!",
   "fi!", "fu!", "ĝis!", "ha!", "ha lo!", "he!", "hej!", "ho!", "ho ve!",
   "hoj!", "hola!", "hu!", "hup!", "hura!", "lo!", "lu lu!", "nu!", "uf!",
   "up!", "ŭa!", "ve!", "volapukaĵo!", "jen"].map String.data

/-- `InterjectionMorphologicalAnalyzer.match` (override): membership of the
lowercased word in the interjection list (whose entries are lowercase). -/
def interjectionMatch (word : List Char) : Bool :=
  INTERJECTIONS.contains (toLower word)

/-- `InterjectionMorphologicalAnalyzer.extractMorphology`. -/
def interjectionExtractMorphology (word : List Char) (options : AnalysisOptions) :
    MorphologicalFeatures :=
  { baseExtractMorphology (fun _ => false) (fun _ => false) word options with
    isPlural := false, isAccusative := false
    root := some (toLower word) }

/-! ### Numeral analyzer (src/unnamed/part_003, first part) -/

def BASIC_NUMBERS : List (List Char) :=
  ["nul", "unu", "du", "tri", "kvar", "kvin", "ses", "sep", "ok", "naŭ",
   "dek", "cent", "mil", "milion", "miliard"].map String.data

/-- The seven special number words to which, in the source regex, the
trailing `(j?n?)?` group does *not* apply (it binds only to the last
alternative, `promilo`). -/
def SPECIAL_NUMBERS_PLAIN : List (List Char) :=
  ["ambaŭ", "paro", "duopo", "trio", "kvarteto", "dekumo",
   "pecento"].map String.data

/-- `(BASIC_NUMBERS)+`: the list is a non-empty concatenation of basic number
roots.  Implemented with a fuel argument (each root is non-empty, so
`l.length` steps suffice) to keep the recursion structural. -/
def basicSeqFuel : Nat → List Char → Bool
  | 0, _ => false
  | n + 1, l =>
    BASIC_NUMBERS.any (fun b =>
      b.isPrefixOf l && (l.length = b.length || basicSeqFuel n (l.drop b.length)))

def basicSeq (l : List Char) : Bool := basicSeqFuel l.length l

/-- The concrete strings generated by the optional ending group
`(a(j?n?)|e|on(j?n?)|obl[ae](j?n?)|op[ae](j?n?))` of the numeral regex. -/
def NUMERAL_ENDINGS : List (List Char) :=
  ["a", "aj", "an", "ajn", "e", "on", "onj", "onn", "onjn",
   "obla", "oblaj", "oblan", "oblajn", "oble", "oblej", "oblen", "oblejn",
   "opa", "opaj", "opan", "opajn", "ope", "opej", "open", "opejn"].map String.data

/-- The suffix strings generated by `(j?n?)`. -/
def jnSuffixes : List (List Char) := [[], ['j'], ['n'], ['j', 'n']]

/-- Numeral `matchRegex` (`'iu'` flags):
`^((BASIC)+(ENDING)?|ambaŭ|paro|duopo|trio|kvarteto|dekumo|pecento|promilo(j?n?)?)$`. -/
def numeralMatch (word : List Char) : Bool :=
  let lw := toLower word
  ([] :: NUMERAL_ENDINGS).any (fun e =>
    endsWith lw e && basicSeq (lw.take (lw.length - e.length))) ||
  SPECIAL_NUMBERS_PLAIN.contains lw ||
  jnSuffixes.any (fun e => lw = "promilo".data ++ e)

/-- Longest of the given concrete suffixes that `l` ends with (the leftmost
match of an anchored regex of optional literal parts). -/
def longestSuffixOf (cands : List (List Char)) (l : List Char) :
    Option (List Char) :=
  (cands.filter (fun c => endsWith l c)).foldl
    (fun acc c =>
      match acc with
      | none => some c
      | some b => if b.length < c.length then some c else some b)
    none

/-- `NumeralMorphologicalAnalyzer.extractNumeralRoot`: try, in order, the
suffix patterns `a(j?n?)`, `e`, `on(j?n?)`, `obl[ae](j?n?)`, `op[ae](j?n?)`,
`(j?n?)` and strip the first (leftmost, hence longest-suffix) match; the last
pattern always matches (possibly with the empty string). -/
def extractNumeralRoot (word : List Char) : List Char :=
  let lw := toLower word
  let strip := fun (m : List Char) => lw.take (lw.length - m.length)
  match longestSuffixOf (["ajn", "aj", "an", "a"].map String.data) lw with
  | some m => strip m
  | none =>
    if endsWith lw ['e'] then strip ['e']
    else
      match longestSuffixOf (["onjn", "onj", "onn", "on"].map String.data) lw with
      | some m => strip m
      | none =>
        match longestSuffixOf
            (["oblajn", "oblej", "oblejn", "oblaj", "oblan", "oblen",
              "obla", "oble"].map String.data) lw with
        | some m => strip m
        | none =>
          match longestSuffixOf
              (["opajn", "opej", "opejn", "opaj", "opan", "open",
                "opa", "ope"].map String.data) lw with
          | some m => strip m
          | none =>
            match longestSuffixOf (["jn", "j", "n"].map String.data) lw with
            | some m => strip m
            | none => lw

/-- `NumeralMorphologicalAnalyzer.checkPlural` (override): `/j/` anywhere. -/
def numeralCheckPlural (word : List Char) : Bool := (toLower word).contains 'j'

/-- `NumeralMorphologicalAnalyzer.checkAccusative` (override): `/n$/`. -/
def numeralCheckAccusative (word : List Char) : Bool := endsWith (toLower word) ['n']

/-- `NumeralMorphologicalAnalyzer.extractMorphology` (type classification
fields are annotation-only and not modelled). -/
def numeralExtractMorphology (word : List Char) (options : AnalysisOptions) :
    MorphologicalFeatures :=
  { baseExtractMorphology numeralCheckPlural numeralCheckAccusative word options with
    root := some (extractNumeralRoot word) }

/-! ### Preposition analyzer (preposition.ts) -/

def PREPOSITIONS : List (List Char) :=
  ["al", "anstataŭ", "antaŭ", "apud", "ce", "ĉe", "ĉirkaŭ", "da", "de",
   "dum", "ekster", "el", "en", "estas", "for", "ĝis", "inter", "je",
   "kontraŭ", "krom", "kun", "laŭ", "malgraŭ", "per", "po", "por", "post",
   "preter", "pri", "pro", "sen", "sub", "super", "sur", "tra", "trans",
   "ĉu"].map String.data

def COMPOUND_PREPOSITIONS : List (List Char) :=
  ["anstataŭ ol", "dank' al", "danke al", "kune kun", "rilate al",
   "spite al", "nome pri", "koncerne pri"].map String.data

/-- Preposition `matchRegex` (case-insensitive alternation of both lists). -/
def prepositionMatch (word : List Char) : Bool :=
  (PREPOSITIONS ++ COMPOUND_PREPOSITIONS).contains (toLower word)

/-- `PrepositionMorphologicalAnalyzer.extractMorphology`. -/
def prepositionExtractMorphology (word : List Char) (options : AnalysisOptions) :
    MorphologicalFeatures :=
  { baseExtractMorphology (fun _ => false) (fun _ => false) word options with
    isPlural := false, isAccusative := false
    root := some (toLower word) }

/-! ### Pronoun analyzer (src/unnamed/part_001) -/

def PERSONAL_PRONOUNS : List (List Char) :=
  ["mi", "vi", "li", "ŝi", "ĝi", "ni", "ili", "oni", "si"].map String.data

def POSSESSIVE_ROOTS : List (List Char) := PERSONAL_PRONOUNS

def CORRELATIVE_BEGINNINGS : List (List Char) :=
  ["ki", "ti", "i", "ĉi", "neni"].map String.data

def CORRELATIVE_ENDINGS : List (List Char) :=
  ["u", "o", "a", "e", "al", "am", "om", "el"].map String.data

/-- `PronounMorphologicalAnalyzer.generateCorrelatives`: every beginning
crossed with every ending, with an extra `-uo` form after each `-u` form. -/
def generateCorrelatives : List (List Char) :=
  CORRELATIVE_BEGINNINGS.flatMap (fun b =>
    CORRELATIVE_ENDINGS.flatMap (fun e =>
      if e = ['u'] then [b ++ e, b ++ e ++ ['o']] else [b ++ e]))

def SPECIAL_PRONOUNS : List (List Char) :=
  ["ĉi", "mem", "sama", "tia", "tial", "tiam", "tie", "tiel", "tiom"].map String.data

/-- The `ti…` bodies of the two-word `ĉi\s+(ti[uoael]|ti[ao]m|tiel)` branch of
the pronoun regex. -/
def CXI_COMPOUND_TAILS : List (List Char) :=
  ["tiu", "tio", "tia", "tie", "til", "tiam", "tiom", "tiel"].map String.data

/-- Pronoun `matchRegex` (`'iu'` flags), modelled on the lowercased word:
personal pronouns with optional `n`, possessive roots with `a(j?n?)`,
correlatives and special pronouns with `(j?n?)`, and `ĉi` + whitespace +
a `ti…` compound tail with `(j?n?)`. -/
def pronounMatch (word : List Char) : Bool :=
  let lw := toLower word
  PERSONAL_PRONOUNS.any (fun p => lw = p || lw = p ++ ['n']) ||
  POSSESSIVE_ROOTS.any (fun r =>
    [['a'], ['a', 'j'], ['a', 'n'], ['a', 'j', 'n']].any (fun e => lw = r ++ e)) ||
  generateCorrelatives.any (fun c => jnSuffixes.any (fun e => lw = c ++ e)) ||
  SPECIAL_PRONOUNS.any (fun c => jnSuffixes.any (fun e => lw = c ++ e)) ||
  (startsWith lw "ĉi".data &&
    (let r := lw.drop 2
     !(r.takeWhile jsWs).isEmpty &&
       CXI_COMPOUND_TAILS.any (fun t =>
         jnSuffixes.any (fun e => r.dropWhile jsWs = t ++ e))))

/-- `PronounMorphologicalAnalyzer.extractPronounRoot`: lowercase and trim;
strip `ĉi ` from compounds; otherwise try the patterns `a(j?n?)$`, `n$`,
`(j?n?)$` in order, stripping the first whose match is shorter than the
word. -/
def extractPronounRoot (word : List Char) : List Char :=
  let lw := trimL (toLower word)
  if startsWith lw "ĉi ".data then lw.drop 3
  else
    let strip := fun (m : List Char) => lw.take (lw.length - m.length)
    match longestSuffixOf (["ajn", "aj", "an", "a"].map String.data) lw with
    | some m =>
      if m.length < lw.length then strip m
      else lw
    | none =>
      if endsWith lw ['n'] && decide (1 < lw.length) then strip ['n']
      else
        match longestSuffixOf (["jn", "j", "n"].map String.data) lw with
        | some m => if m.length < lw.length then strip m else lw
        | none => lw

/-- `PronounMorphologicalAnalyzer.checkPlural` (override): `/j/` anywhere. -/
def pronounCheckPlural (word : List Char) : Bool := (toLower word).contains 'j'

/-- `PronounMorphologicalAnalyzer.checkAccusative` (override): `/n$/`. -/
def pronounCheckAccusative (word : List Char) : Bool := endsWith (toLower word) ['n']

/-- `PronounMorphologicalAnalyzer.extractMorphology` (pronoun type
classification fields are annotation-only and not modelled). -/
def pronounExtractMorphology (word : List Char) (options : AnalysisOptions) :
    MorphologicalFeatures :=
  { baseExtractMorphology pronounCheckPlural pronounCheckAccusative word options with
    root := some (extractPronounRoot word) }

/-! ### The `createWord` factory (src/src/speech/index.ts)

`createWord(value, partOfSpeech)` switches on the part-of-speech *string*;
the `Article` class constructor throws `InvalidArticleError` unless the value
lowercases to `la`; every other branch (including the `UndefinedWord`
default) succeeds. -/

def posToString : PartOfSpeech → List Char
  | .Noun => "Noun".data
  | .Verb => "Verb".data
  | .Adjective => "Adjective".data
  | .Adverb => "Adverb".data
  | .Pronoun => "Pronoun".data
  | .Preposition => "Preposition".data
  | .Conjunction => "Conjunction".data
  | .Interjection => "Interjection".data
  | .Article => "Article".data
  | .Numeral => "Numeral".data
  | .Unknown => "Unknown".data
  | .Undefined => "Undefined".data

def createWord (value partOfSpeech : List Char) : Except Unit WordInst :=
  if partOfSpeech = "Noun".data then .ok ⟨value, .Noun⟩
  else if partOfSpeech = "Verb".data then .ok ⟨value, .Verb⟩
  else if partOfSpeech = "Adjective".data then .ok ⟨value, .Adjective⟩
  else if partOfSpeech = "Adverb".data then .ok ⟨value, .Adverb⟩
  else if partOfSpeech = "Article".data then
    if toLower value = ['l', 'a'] then .ok ⟨value, .Article⟩ else .error ()
  else if partOfSpeech = "Conjunction".data then .ok ⟨value, .Conjunction⟩
  else if partOfSpeech = "Interjection".data then .ok ⟨value, .Interjection⟩
  else if partOfSpeech = "Numeral".data then .ok ⟨value, .Numeral⟩
  else if partOfSpeech = "Preposition".data then .ok ⟨value, .Preposition⟩
  else if partOfSpeech = "Pronoun".data then .ok ⟨value, .Pronoun⟩
  else .ok ⟨value, .Undefined⟩

/-! ### The analyzer table (src/src/analyzers/morphological/index.ts)

`ALL_MORPHOLOGICAL_ANALYZERS`, in its declaration order (the stable tie-break
of the dispatcher's sort). -/

structure MorphAnalyzer where
  name : List Char
  partOfSpeech : PartOfSpeech
  matchP : List Char → Bool
  extractMorphology : List Char → AnalysisOptions → MorphologicalFeatures

def nounAnalyzer : MorphAnalyzer :=
  ⟨"NounMorphologicalAnalyzer".data, .Noun, nounMatch, nounExtractMorphology⟩
def verbAnalyzer : MorphAnalyzer :=
  ⟨"VerbMorphologicalAnalyzer".data, .Verb, verbMatch, verbExtractMorphology⟩
def adjectiveAnalyzer : MorphAnalyzer :=
  ⟨"AdjectiveMorphologicalAnalyzer".data, .Adjective, adjectiveMatch,
    adjectiveExtractMorphology⟩
def adverbAnalyzer : MorphAnalyzer :=
  ⟨"AdverbMorphologicalAnalyzer".data, .Adverb, adverbMatch,
    adverbExtractMorphology⟩
def articleAnalyzer : MorphAnalyzer :=
  ⟨"ArticleMorphologicalAnalyzer".data, .Article, articleMatch,
    articleExtractMorphology⟩
def conjunctionAnalyzer : MorphAnalyzer :=
  ⟨"ConjunctionMorphologicalAnalyzer".data, .Conjunction, conjunctionMatch,
    conjunctionExtractMorphology⟩
def interjectionAnalyzer : MorphAnalyzer :=
  ⟨"InterjectionMorphologicalAnalyzer".data, .Interjection, interjectionMatch,
    interjectionExtractMorphology⟩
def numeralAnalyzer : MorphAnalyzer :=
  ⟨"NumeralMorphologicalAnalyzer".data, .Numeral, numeralMatch,
    numeralExtractMorphology⟩
def prepositionAnalyzer : MorphAnalyzer :=
  ⟨"PrepositionMorphologicalAnalyzer".data, .Preposition, prepositionMatch,
    prepositionExtractMorphology⟩
def pronounAnalyzer : MorphAnalyzer :=
  ⟨"PronounMorphologicalAnalyzer".data, .Pronoun, pronounMatch,
    pronounExtractMorphology⟩

def ALL_MORPHOLOGICAL_ANALYZERS : List MorphAnalyzer :=
  [nounAnalyzer, verbAnalyzer, adjectiveAnalyzer, adverbAnalyzer,
   articleAnalyzer, conjunctionAnalyzer, interjectionAnalyzer,
   numeralAnalyzer, prepositionAnalyzer, pronounAnalyzer]

/-! ### Confidence heuristic (`MorphologicalAnalyzer.calculateConfidence`) -/

/-- The correlative pronoun list hard-coded in `calculateConfidence`. -/
def correlativePronounsConf : List (List Char) :=
  ["kiu", "kio", "kia", "kie", "kial", "kiam", "kiom", "kiel",
   "tiu", "tio", "tia", "tie", "tial", "tiam", "tiom", "tiel",
   "iu", "io", "ia", "ie", "ial", "iam", "iom", "iel",
   "ĉiu", "ĉio", "ĉia", "ĉie", "ĉial", "ĉiam", "ĉiom", "ĉiel",
   "neniu", "nenio", "nenia", "nenie", "nenial", "neniam", "neniom",
   "neniel"].map String.data

/-- Canonical noun shape `/^[a-zA-ZĉĝĵĥŝŭĈĜĴĤŜŬ]+o(j?n?)$/` (root of at
least one letter). -/
def canonicalNounShape (word : List Char) : Bool :=
  [['o'], ['o', 'j'], ['o', 'n'], ['o', 'j', 'n']].any
    (fun t => matchTail littera 1 word t)

/-- Canonical verb shape `/^[a-zA-ZĉĝĵĥŝŭĈĜĴĤŜŬ]+(as|is|os|us|u|i)$/`. -/
def canonicalVerbShape (word : List Char) : Bool :=
  [['a', 's'], ['i', 's'], ['o', 's'], ['u', 's'], ['u'], ['i']].any
    (fun t => matchTail littera 1 word t)

/-- Canonical adjective shape `/^[a-zA-ZĉĝĵĥŝŭĈĜĴĤŜŬ]+a(j?n?)$/`. -/
def canonicalAdjectiveShape (word : List Char) : Bool :=
  [['a'], ['a', 'j'], ['a', 'n'], ['a', 'j', 'n']].any
    (fun t => matchTail littera 1 word t)

/-- Canonical adverb shape `/^[a-zA-ZĉĝĵĥŝŭĈĜĴĤŜŬ]+e$/`. -/
def canonicalAdverbShape (word : List Char) : Bool :=
  matchTail littera 1 word ['e']

/-- `MorphologicalAnalyzer.calculateConfidence`: base 0.5; absolute overrides
for the exact article / basic numerals / listed correlative pronouns; +0.2
for words longer than 5 characters analysed as Verb/Noun/Adjective; +0.3 for
the canonical tag shape; capped at 1. -/
def calculateConfidence (pos : PartOfSpeech) (word : List Char) : ℚ :=
  let lw := toLower word
  let c0 : ℚ := 1 / 2
  let c1 := if pos = .Article ∧ lw = ['l', 'a'] then 1 else c0
  let c2 := if pos = .Numeral ∧ BASIC_NUMBERS.contains lw then 19 / 20 else c1
  let c3 := if pos = .Pronoun ∧ correlativePronounsConf.contains lw then 9 / 10 else c2
  let c4 := if 5 < word.length ∧ pos ∈ [.Verb, .Noun, .Adjective] then c3 + 1 / 5 else c3
  let c5 :=
    match pos with
    | .Noun => if canonicalNounShape word then c4 + 3 / 10 else c4
    | .Verb => if canonicalVerbShape word then c4 + 3 / 10 else c4
    | .Adjective => if canonicalAdjectiveShape word then c4 + 3 / 10 else c4
    | .Adverb => if canonicalAdverbShape word then c4 + 3 / 10 else c4
    | _ => c4
  min c5 1

/-! ### The dispatcher's sort

JS `Array.prototype.sort` with comparator `(a, b) => b.confidence -
a.confidence` is a stable descending sort; a stable sort for a total
preorder has a unique result, realised here by a stable insertion sort. -/

def insertDescBy (key : α → ℚ) (x : α) : List α → List α
  | [] => [x]
  | y :: ys => if key y ≤ key x then x :: y :: ys else y :: insertDescBy key x ys

def sortDescBy (key : α → ℚ) : List α → List α
  | [] => []
  | x :: xs => insertDescBy key x (sortDescBy key xs)

/-! ### Word-level dispatcher (`MorphologicalAnalyzer`, morphological-analyzer.ts) -/

/-- `MorphologicalAnalyzer.createUnknownWordResult`. -/
def createUnknownWordResult (word : List Char) : AnalysisResult :=
  { word := word
    partOfSpeech := .Unknown
    morphology := some { isPlural := false, isAccusative := false, root := some word }
    wordInstance := none
    confidence := some 0
    alternatives := []
    analyzer := "Unknown".data }

/-- One entry of `getAlternatives`: extraction cannot fail after a successful
match, so only the swapped-argument `createWord(speechPart, word)` call can
throw, degrading the entry to the zero-confidence Unknown stub of the
source's catch branch. -/
def alternativeFromMatch (m : MorphAnalyzer × ℚ) (word : List Char)
    (options : AnalysisOptions) : WordResult :=
  match createWord (posToString m.1.partOfSpeech) word with
  | .ok wi =>
    { word := word
      partOfSpeech := m.1.partOfSpeech
      morphology := some (m.1.extractMorphology word options)
      wordInstance := some wi
      confidence := some m.2
      analyzer := m.1.name }
  | .error _ =>
    { word := word
      partOfSpeech := .Unknown
      morphology := some { isPlural := false, isAccusative := false, root := some word }
      wordInstance := none
      confidence := some 0
      analyzer := m.1.name }

/-- `MorphologicalAnalyzer.getAlternatives` (at most the top 3 remaining
matches). -/
def getAlternatives (ms : List (MorphAnalyzer × ℚ)) (word : List Char)
    (options : AnalysisOptions) : List WordResult :=
  (ms.take 3).map (fun m => alternativeFromMatch m word options)

/-- The match-collection loop of `MorphologicalAnalyzer.analyze`: every
analyzer whose match predicate accepts the word, paired with its confidence
(no match predicate of the ten analyzers can throw, so the catch-and-skip of
the source is a no-op). -/
def collectMatches (cleanWord : List Char) : List (MorphAnalyzer × ℚ) :=
  ALL_MORPHOLOGICAL_ANALYZERS.filterMap (fun a =>
    if a.matchP cleanWord then
      some (a, calculateConfidence a.partOfSpeech cleanWord)
    else none)

/-- The body of `MorphologicalAnalyzer.analyze` after input validation:
collect the matching analyzers with their confidences, sort by descending
confidence (analyzer order as the stable tie-break), and build the result
from the best match; the source's `try`/`catch` around
morphology-extraction + `createWord` degrades to the Unknown result exactly
when the (argument-swapped) `createWord(speechPart, cleanWord)` call throws. -/
def analyzeCore (cleanWord : List Char) (options : AnalysisOptions) :
    AnalysisResult :=
  if (collectMatches cleanWord).isEmpty then createUnknownWordResult cleanWord
  else
    match sortDescBy (fun m => m.2) (collectMatches cleanWord) with
    | [] => createUnknownWordResult cleanWord
    | best :: rest =>
      match createWord (posToString best.1.partOfSpeech) cleanWord with
      | .error _ => createUnknownWordResult cleanWord
      | .ok wi =>
        { word := cleanWord
          partOfSpeech := best.1.partOfSpeech
          morphology := some (best.1.extractMorphology cleanWord options)
          wordInstance := some wi
          confidence := some best.2
          alternatives := getAlternatives rest cleanWord options
          analyzer := best.1.name }

/-- `MorphologicalAnalyzer.analyze`: `none` models a `null`/non-string
argument; it and the empty / whitespace-only strings raise
(`Except.error`). -/
def analyze (word : Option (List Char))
    (options : AnalysisOptions := getDefaultOptions) :
    Except Unit AnalysisResult :=
  match word with
  | none => .error ()
  | some w =>
    if w = [] then .error ()
    else
      let cleanWord := trimL w
      if cleanWord = [] then .error ()
      else .ok (analyzeCore cleanWord options)

/-- The body of `MorphologicalAnalyzer.analyzeAll` after validation: one full
result per matching analyzer (an analyzer whose processing throws — i.e.
whose `createWord` call throws — is skipped), sorted by descending
`confidence || 0`. -/
def analyzeAllCore (cleanWord : List Char) (options : AnalysisOptions) :
    List WordResult :=
  sortDescBy (fun r => r.confidence.getD 0)
    (ALL_MORPHOLOGICAL_ANALYZERS.filterMap (fun a =>
      if a.matchP cleanWord then
        match createWord (posToString a.partOfSpeech) cleanWord with
        | .ok wi =>
          some { word := cleanWord
                 partOfSpeech := a.partOfSpeech
                 morphology := some (a.extractMorphology cleanWord options)
                 wordInstance := some wi
                 confidence := some (calculateConfidence a.partOfSpeech cleanWord)
                 analyzer := a.name }
        | .error _ => none
      else none))

/-- `MorphologicalAnalyzer.analyzeAll` (its options default is `{}`, i.e.
all-false). -/
def analyzeAll (word : Option (List Char))
    (options : AnalysisOptions := {}) : Except Unit (List WordResult) :=
  match word with
  | none => .error ()
  | some w =>
    if w = [] then .error ()
    else
      let cleanWord := trimL w
      if cleanWord = [] then .error ()
      else .ok (analyzeAllCore cleanWord options)

/-- `MorphologicalAnalyzer.canAnalyze`: `false` on invalid input, otherwise
whether some analyzer's match predicate accepts the trimmed word (none of
the match predicates can throw). -/
def canAnalyze (word : Option (List Char)) : Bool :=
  match word with
  | none => false
  | some w =>
    if w = [] then false
    else
      let cleanWord := trimL w
      if cleanWord = [] then false
      else ALL_MORPHOLOGICAL_ANALYZERS.any (fun a => a.matchP cleanWord)

/-! ### Package entry points (src/src/index.ts) -/

/-- `analyzeWord` (src/src/index.ts): delegates to the dispatcher with its
default options. -/
def analyzeWord (word : Option (List Char)) : Except Unit AnalysisResult :=
  analyze word

/-- `isEsperantoWord` (src/src/index.ts): delegates to `canAnalyze`; total,
hence it never throws. -/
def isEsperantoWord (word : Option (List Char)) : Bool := canAnalyze word

/-! ### Sentence-level analyzer
(`MorphologicalSentenceAnalyzer`, src/unnamed/part_004) -/

/-- Merged `SentenceAnalysisOptions`: the source spreads the caller's options
over `{includeConfidence: true, includeAlternatives: false,
includeMorphology: true, maxAlternatives: 2, preserveCase: false}`; the
defaults here are those merged defaults. -/
structure SentenceAnalysisOptions where
  includeConfidence : Bool := true
  includeAlternatives : Bool := false
  includeMorphology : Bool := true
  maxAlternatives : Nat := 2
  preserveCase : Bool := false
deriving DecidableEq, Repr

structure SentenceStatistics where
  totalWords : Nat
  analyzedWords : Nat
  unknownWords : Nat
  averageConfidence : ℚ
  partOfSpeechCounts : List (PartOfSpeech × Nat)
deriving DecidableEq, Repr

structure SentenceAnalysisResult where
  originalSentence : List Char
  words : List AnalysisResult
  statistics : SentenceStatistics
deriving DecidableEq, Repr

/-- The sentence punctuation class `[.!?;:,]`. -/
def isPunctChar (c : Char) : Bool := c ∈ ['.', '!', '?', ';', ':', ',']

/-- Chunks of `l` between whitespace characters (possibly empty chunks). -/
def splitWsAux : List Char → List Char → List (List Char)
  | [], acc => [acc.reverse]
  | c :: cs, acc =>
    if jsWs c then acc.reverse :: splitWsAux cs []
    else splitWsAux cs (c :: acc)

def splitWs (l : List Char) : List (List Char) := splitWsAux l []

/-- `MorphologicalSentenceAnalyzer.tokenize`: surround each punctuation
character by spaces, split on whitespace (the intermediate
whitespace-collapsing and trimming of the source only removes empty chunks,
which the length filter removes anyway), drop empty tokens, then drop
pure-punctuation tokens (`/^[.!?;:,]+$/`, equivalent to `all isPunctChar` on
the remaining non-empty tokens). -/
def tokenize (sentence : List Char) : List (List Char) :=
  let padded := sentence.flatMap (fun c =>
    if isPunctChar c then [' ', c, ' '] else [c])
  (((splitWs padded).filter (fun t => !t.isEmpty)).filter
    (fun t => !t.all isPunctChar))

/-- The analysis attempt for one token of the `analyzeSentence` loop: with
`includeAlternatives`, promote the best `analyzeAll` result (falling back to
`analyze` when `analyzeAll` finds nothing) and attach `slice(1,
maxAlternatives + 1)` of the remaining ones; otherwise just `analyze`. -/
def attemptToken (options : SentenceAnalysisOptions) (word : List Char) :
    Except Unit AnalysisResult :=
  if options.includeAlternatives then
    match analyzeAll (some word) with
    | .error e => .error e
    | .ok allAnalyses =>
      match allAnalyses with
      | [] => analyze (some word)
      | fullResult :: restAll =>
        .ok { toWordResult := fullResult
              alternatives := restAll.take options.maxAlternatives }
  else analyze (some word)

/-- The option filtering applied to a successfully analysed token
(`delete … confidence`, `delete … morphology`, forced-empty alternatives,
and the `preserveCase` override of the `word` field). -/
def applyOptions (options : SentenceAnalysisOptions) (word : List Char)
    (r0 : AnalysisResult) : AnalysisResult :=
  let r1 := if !options.includeConfidence then { r0 with confidence := none } else r0
  let r2 := if !options.includeMorphology then { r1 with morphology := none } else r1
  let r3 := if !options.includeAlternatives then { r2 with alternatives := [] } else r2
  if options.preserveCase then { r3 with word := word } else r3

/-- The Unknown stub the sentence loop's catch branch produces for a token
whose analysis raised. -/
def tokenErrorStub (options : SentenceAnalysisOptions) (word : List Char) :
    AnalysisResult :=
  { word := if options.preserveCase then word else toLower word
    partOfSpeech := .Unknown
    morphology := some { isPlural := false, isAccusative := false
                         root := some (toLower word) }
    wordInstance := none
    confidence := some 0
    alternatives := []
    analyzer := "Unknown".data }

/-- The per-token body of the `analyzeSentence` loop, including the option
filtering and the catch-all degradation to an Unknown stub. -/
def processToken (options : SentenceAnalysisOptions) (word : List Char) :
    AnalysisResult :=
  match attemptToken options word with
  | .ok r0 => applyOptions options word r0
  | .error _ => tokenErrorStub options word

/-- One step of the `partOfSpeechCounts` frequency fold:
`counts[pos] = (counts[pos] || 0) + 1` on a JS object, i.e. increment in
place or append a fresh key. -/
def bump : List (PartOfSpeech × Nat) → PartOfSpeech → List (PartOfSpeech × Nat)
  | [], p => [(p, 1)]
  | (q, n) :: t, p => if q = p then (q, n + 1) :: t else (q, n) :: bump t p

/-- Lookup in the counts object. -/
def lookupCount : List (PartOfSpeech × Nat) → PartOfSpeech → Option Nat
  | [], _ => none
  | (q, n) :: t, p => if q = p then some n else lookupCount t p

/-- The `confidenceSum` accumulator of `calculateStatistics`: it ranges only
over non-Unknown words carrying a numeric confidence. -/
def confidenceSumOf (wordAnalyses : List AnalysisResult) : ℚ :=
  (wordAnalyses.filter (fun w =>
      w.partOfSpeech ≠ .Unknown && w.confidence.isSome)).foldl
    (fun s w => s + w.confidence.getD 0) (0 : ℚ)

/-- The `wordsWithConfidence` count of `calculateStatistics`: every word
carrying a numeric confidence. -/
def wordsWithConfidenceOf (wordAnalyses : List AnalysisResult) : Nat :=
  (wordAnalyses.filter (fun w => w.confidence.isSome)).length

/-- `MorphologicalSentenceAnalyzer.calculateStatistics`: the confidence sum
ranges over non-Unknown words carrying a numeric confidence, the divisor over
all words carrying one, with a division-by-zero guard. -/
def calculateStatistics (wordAnalyses : List AnalysisResult) :
    SentenceStatistics :=
  { totalWords := wordAnalyses.length
    analyzedWords :=
      (wordAnalyses.filter (fun w => w.partOfSpeech ≠ .Unknown)).length
    unknownWords :=
      wordAnalyses.length -
        (wordAnalyses.filter (fun w => w.partOfSpeech ≠ .Unknown)).length
    averageConfidence :=
      if 0 < wordsWithConfidenceOf wordAnalyses then
        confidenceSumOf wordAnalyses / (wordsWithConfidenceOf wordAnalyses : ℚ)
      else 0
    partOfSpeechCounts := wordAnalyses.foldl (fun m w => bump m w.partOfSpeech) [] }

/-- The body of `analyzeSentence` after input validation. -/
def analyzeSentenceCore (cleanSentence : List Char)
    (options : SentenceAnalysisOptions) : SentenceAnalysisResult :=
  let wordAnalyses := (tokenize cleanSentence).map (processToken options)
  { originalSentence := cleanSentence
    words := wordAnalyses
    statistics := calculateStatistics wordAnalyses }

/-- `MorphologicalSentenceAnalyzer.analyzeSentence` (and, with the default
options, the package-level `analyzeSentence`). -/
def analyzeSentence (sentence : Option (List Char))
    (options : SentenceAnalysisOptions := {}) :
    Except Unit SentenceAnalysisResult :=
  match sentence with
  | none => .error ()
  | some s =>
    if s = [] then .error ()
    else
      let cleanSentence := trimL s
      if cleanSentence = [] then .error ()
      else .ok (analyzeSentenceCore cleanSentence options)

/-! ### Spec-side definitions and projection helpers -/

/-- Modelled from the spec (§3, `SentenceAnalysisResult.statistics`):
"`averageConfidence` is the mean confidence over all words that carry a
confidence value (0 if none)."  This is the definition the statistics claim
is compared against. -/
def specAverageConfidence (words : List AnalysisResult) : ℚ :=
  let cs := words.filterMap (fun w => w.confidence)
  if cs.isEmpty then 0 else cs.sum / (cs.length : ℚ)

/-- Part of speech of a word-analysis outcome (`none` when the call
raised). -/
def posOf (e : Except Unit AnalysisResult) : Option PartOfSpeech :=
  e.toOption.map (fun r => r.partOfSpeech)

/-- Confidence of a word-analysis outcome. -/
def confOf (e : Except Unit AnalysisResult) : Option (Option ℚ) :=
  e.toOption.map (fun r => r.confidence)

/-- Morphological root of a word-analysis outcome. -/
def rootOf (e : Except Unit AnalysisResult) : Option (Option (List Char)) :=
  e.toOption.map (fun r => r.morphology.bind (fun m => m.root))

/-- Tense of a word-analysis outcome. -/
def tenseOf (e : Except Unit AnalysisResult) : Option (Option VerbTense) :=
  e.toOption.map (fun r => r.morphology.bind (fun m => m.tense))

/-- Mood of a word-analysis outcome. -/
def moodOf (e : Except Unit AnalysisResult) : Option (Option VerbMood) :=
  e.toOption.map (fun r => r.morphology.bind (fun m => m.mood))

/-- The `word` fields of a sentence-analysis outcome. -/
def sentenceWordsOf (e : Except Unit SentenceAnalysisResult) :
    Option (List (List Char)) :=
  e.toOption.map (fun r => r.words.map (fun w => w.word))

/-! ## Lemmas about trimming and splitting -/

theorem trimL_nil : trimL [] = [] := rfl

theorem dropWhile_of_all_neg {p : Char → Bool} {l : List Char}
    (h : l.all (fun c => !p c)) : l.dropWhile p = l := by
  cases l with
  | nil => rfl
  | cons a t =>
    have ha : p a = false := by
      simp only [List.all_cons, Bool.and_eq_true, Bool.not_eq_true'] at h
      exact h.1
    simp [List.dropWhile_cons, ha]

theorem trimL_of_no_ws {l : List Char} (h : l.all (fun c => !jsWs c)) :
    trimL l = l := by
  unfold trimL
  rw [dropWhile_of_all_neg h, dropWhile_of_all_neg (by simpa using h),
    List.reverse_reverse]

theorem trimL_of_all_ws {l : List Char} (h : l.all jsWs) : trimL l = [] := by
  unfold trimL
  have h1 : l.dropWhile jsWs = [] := by
    rw [List.dropWhile_eq_nil_iff]
    intro x hx
    exact (List.all_eq_true.mp h) x hx
  rw [h1]
  rfl

/-- Every chunk produced by `splitWsAux l acc` consists of non-whitespace
characters, provided `acc` does. -/
theorem splitWsAux_no_ws : ∀ (l acc : List Char),
    acc.all (fun c => !jsWs c) →
    ∀ t ∈ splitWsAux l acc, t.all (fun c => !jsWs c)
  | [], acc, hacc, t, ht => by
    simp only [splitWsAux, List.mem_singleton] at ht
    subst ht
    simpa using hacc
  | c :: cs, acc, hacc, t, ht => by
    unfold splitWsAux at ht
    split at ht
    · rcases List.mem_cons.mp ht with rfl | ht
      · simpa using hacc
      · exact splitWsAux_no_ws cs [] (by simp) t ht
    · refine splitWsAux_no_ws cs (c :: acc) ?_ t ht
      simp only [List.all_cons, Bool.and_eq_true]
      exact ⟨by simpa using ‹¬ jsWs c = true›, hacc⟩

/-- Every token of `tokenize` is non-empty and free of whitespace. -/
theorem tokenize_tokens_clean {s : List Char} :
    ∀ t ∈ tokenize s, t ≠ [] ∧ t.all (fun c => !jsWs c) := by
  intro t ht
  unfold tokenize at ht
  have ht1 := List.mem_of_mem_filter ht
  have ht2 := List.mem_of_mem_filter ht1
  refine ⟨?_, splitWsAux_no_ws _ [] (by simp) t ht2⟩
  have := List.of_mem_filter ht1
  simpa using this

/-! ## Lemmas about the stable descending sort -/

theorem mem_insertDescBy {key : α → ℚ} (x : α) (l : List α) (a : α) :
    a ∈ insertDescBy key x l ↔ a = x ∨ a ∈ l := by
  induction l with
  | nil => simp [insertDescBy]
  | cons y ys ih =>
    unfold insertDescBy
    split
    · simp
    · simp only [List.mem_cons, ih]
      tauto

theorem mem_sortDescBy {key : α → ℚ} (l : List α) (a : α) :
    a ∈ sortDescBy key l ↔ a ∈ l := by
  induction l with
  | nil => simp [sortDescBy]
  | cons y ys ih =>
    unfold sortDescBy
    rw [mem_insertDescBy, ih, List.mem_cons]

theorem pairwise_insertDescBy {key : α → ℚ} {x : α} {l : List α}
    (h : l.Pairwise (fun a b => key b ≤ key a)) :
    (insertDescBy key x l).Pairwise (fun a b => key b ≤ key a) := by
  induction l with
  | nil => simp [insertDescBy]
  | cons y ys ih =>
    rcases List.pairwise_cons.mp h with ⟨hy, hys⟩
    unfold insertDescBy
    split
    next hle =>
      refine List.pairwise_cons.mpr ⟨?_, h⟩
      intro b hb
      rcases List.mem_cons.mp hb with rfl | hb
      · exact hle
      · exact le_trans (hy b hb) hle
    next hgt =>
      refine List.pairwise_cons.mpr ⟨?_, ih hys⟩
      intro b hb
      rcases (mem_insertDescBy x ys b).mp hb with rfl | hb
      · exact le_of_lt (lt_of_not_le hgt)
      · exact hy b hb

theorem sortDescBy_pairwise {key : α → ℚ} (l : List α) :
    (sortDescBy key l).Pairwise (fun a b => key b ≤ key a) := by
  induction l with
  | nil => simp [sortDescBy]
  | cons y ys ih => exact pairwise_insertDescBy ih

/-- Inserting an element whose key dominates a sorted-or-not list puts it in
front (this is also where the sort's stability shows: an element never moves
past an equal-keyed earlier one). -/
theorem sortDescBy_cons_max {key : α → ℚ} {x : α} {l : List α}
    (h : ∀ y ∈ l, key y ≤ key x) :
    sortDescBy key (x :: l) = x :: sortDescBy key l := by
  have e : sortDescBy key (x :: l) = insertDescBy key x (sortDescBy key l) := rfl
  rw [e]
  cases hs : sortDescBy key l with
  | nil => rfl
  | cons z zs =>
    have hz : z ∈ sortDescBy key l := by
      rw [hs]; exact List.mem_cons_self z zs
    have hzx := h z ((mem_sortDescBy l z).mp hz)
    show (if key z ≤ key x then x :: z :: zs else z :: insertDescBy key x zs) =
      x :: z :: zs
    rw [if_pos hzx]

/-! ## Bounds of the confidence heuristic -/

theorem one_half_le_calculateConfidence (p : PartOfSpeech) (w : List Char) :
    (1 : ℚ) / 2 ≤ calculateConfidence p w := by
  have hmin : ∀ q : ℚ, 1 / 2 ≤ q → (1 : ℚ) / 2 ≤ min q 1 := fun q hq =>
    le_min hq (by norm_num)
  cases p <;> simp only [calculateConfidence] <;> apply hmin <;>
    split_ifs <;> norm_num

theorem calculateConfidence_le_one (p : PartOfSpeech) (w : List Char) :
    calculateConfidence p w ≤ 1 := by
  cases p <;> simp only [calculateConfidence] <;> exact min_le_right _ _

/-- Every element of `collectMatches w` carries the confidence of its
analyzer on `w`, and its analyzer matched `w`. -/
theorem mem_collectMatches {w : List Char} {m : MorphAnalyzer × ℚ}
    (h : m ∈ collectMatches w) :
    m.1 ∈ ALL_MORPHOLOGICAL_ANALYZERS ∧ m.1.matchP w = true ∧
      m.2 = calculateConfidence m.1.partOfSpeech w := by
  obtain ⟨a, ha, hfa⟩ := List.mem_filterMap.mp h
  split at hfa
  · cases hfa
    exact ⟨ha, by assumption, rfl⟩
  · cases hfa

/-! ## Claim C10 -/

/-- Claim C10 — for every input that is non-empty after trimming, the word
dispatcher's `analyze` succeeds and its primary confidence is either exactly
0 (and then the part of speech is Unknown) or lies in the closed interval
[0.5, 1]. -/
theorem claim_C10 (w : List Char) (options : AnalysisOptions)
    (h : trimL w ≠ []) :
    analyze (some w) options = .ok (analyzeCore (trimL w) options) ∧
      (((analyzeCore (trimL w) options).confidence = some 0 ∧
          (analyzeCore (trimL w) options).partOfSpeech = .Unknown) ∨
        ∃ c : ℚ, (analyzeCore (trimL w) options).confidence = some c ∧
          1 / 2 ≤ c ∧ c ≤ 1) := by
  have hw : w ≠ [] := by rintro rfl; exact h trimL_nil
  refine ⟨by simp only [analyze, if_neg hw, if_neg h], ?_⟩
  unfold analyzeCore
  split
  · exact Or.inl ⟨rfl, rfl⟩
  split
  next => exact Or.inl ⟨rfl, rfl⟩
  next best rest heq =>
    split
    next => exact Or.inl ⟨rfl, rfl⟩
    next wi hcw =>
      have hb : best ∈ sortDescBy (fun m : MorphAnalyzer × ℚ => m.2)
          (collectMatches (trimL w)) := by
        rw [heq]; exact List.mem_cons_self best rest
      rw [mem_sortDescBy] at hb
      obtain ⟨-, -, hconf⟩ := mem_collectMatches hb
      exact Or.inr ⟨best.2, rfl, hconf ▸ one_half_le_calculateConfidence _ _,
        hconf ▸ calculateConfidence_le_one _ _⟩

/-- Witness for C10 at the concrete input `"kuras"`. -/
theorem claim_C10_witness :
    analyze (some "kuras".data) getDefaultOptions =
        .ok (analyzeCore (trimL "kuras".data) getDefaultOptions) ∧
      (((analyzeCore (trimL "kuras".data) getDefaultOptions).confidence = some 0 ∧
          (analyzeCore (trimL "kuras".data) getDefaultOptions).partOfSpeech = .Unknown) ∨
        ∃ c : ℚ,
          (analyzeCore (trimL "kuras".data) getDefaultOptions).confidence = some c ∧
          1 / 2 ≤ c ∧ c ≤ 1) :=
  claim_C10 "kuras".data getDefaultOptions (by decide)

/-! ## Claim C7 -/

/-- Claim C7 — `analyzeWord` and `analyzeSentence` raise an input-validation
error on `null`/non-string input (modelled `none`), the empty string, and
every whitespace-only string; the error is the functions' result, so it is
surfaced to the caller and never recovered. -/
theorem claim_C7 :
    (analyzeWord none = .error () ∧ analyzeWord (some []) = .error () ∧
      ∀ w : List Char, w.all jsWs → analyzeWord (some w) = .error ()) ∧
    (analyzeSentence none = .error () ∧ analyzeSentence (some []) = .error () ∧
      ∀ w : List Char, w.all jsWs → analyzeSentence (some w) = .error ()) := by
  refine ⟨⟨rfl, rfl, ?_⟩, ⟨rfl, rfl, ?_⟩⟩ <;> intro w hws <;>
    rcases eq_or_ne w [] with rfl | hw
  · rfl
  · simp only [analyzeWord, analyze, if_neg hw, trimL_of_all_ws hws, if_pos]
  · rfl
  · simp only [analyzeSentence, if_neg hw, trimL_of_all_ws hws, if_pos]

/-- Witness for C7 at the concrete whitespace-only input `"   "`. -/
theorem claim_C7_witness :
    analyzeWord (some "   ".data) = .error () ∧
      analyzeSentence (some "   ".data) = .error () :=
  ⟨claim_C7.1.2.2 "   ".data (by decide), claim_C7.2.2.2 "   ".data (by decide)⟩

/-! ## Claim C8 -/

/-- Claim C8 — `isEsperantoWord` is a total Boolean function (so it never
throws; in the source every analyzer `match` call is additionally wrapped in
a try/catch), and it returns `false` on `null`/non-string input, on inputs
that are empty after trimming (hence on the empty and whitespace-only
strings), and on every word no analyzer matches. -/
theorem claim_C8 :
    isEsperantoWord none = false ∧
    (∀ w : List Char, trimL w = [] → isEsperantoWord (some w) = false) ∧
    (∀ w : List Char,
      (∀ a ∈ ALL_MORPHOLOGICAL_ANALYZERS, a.matchP (trimL w) = false) →
      isEsperantoWord (some w) = false) := by
  refine ⟨rfl, ?_, ?_⟩
  · intro w h
    rcases eq_or_ne w [] with rfl | hw
    · rfl
    · simp only [isEsperantoWord, canAnalyze, if_neg hw, h, if_pos]
  · intro w h
    rcases eq_or_ne w [] with rfl | hw
    · rfl
    · rcases eq_or_ne (trimL w) [] with h0 | h0
      · simp only [isEsperantoWord, canAnalyze, if_neg hw, h0, if_pos]
      · simp only [isEsperantoWord, canAnalyze, if_neg hw, if_neg h0]
        rw [List.any_eq_false]
        intro a ha
        simp [h a ha]

/-- Witness for C8 at the whitespace-only input `"  "` and the unmatched
input `"notaword"`. -/
theorem claim_C8_witness :
    isEsperantoWord (some "  ".data) = false ∧
      isEsperantoWord (some "notaword".data) = false :=
  ⟨claim_C8.2.1 "  ".data (by decide),
    claim_C8.2.2 "notaword".data (by decide)⟩

/-! ## Claim C4 -/

/-- Claim C4 — for every trimmed, non-empty word that no analyzer's match
predicate accepts, `analyze` returns the synthetic Unknown result: part of
speech Unknown, confidence 0, morphology `{root: word, isPlural: false,
isAccusative: false}`, and empty alternatives. -/
theorem claim_C4 (w : List Char) (options : AnalysisOptions)
    (hne : w ≠ []) (htrim : trimL w = w)
    (hnm : ∀ a ∈ ALL_MORPHOLOGICAL_ANALYZERS, a.matchP w = false) :
    analyze (some w) options = .ok (createUnknownWordResult w) ∧
      (createUnknownWordResult w).partOfSpeech = .Unknown ∧
      (createUnknownWordResult w).confidence = some 0 ∧
      (createUnknownWordResult w).morphology =
        some { isPlural := false, isAccusative := false, root := some w } ∧
      (createUnknownWordResult w).alternatives = [] := by
  have hcm : collectMatches w = [] := by
    unfold collectMatches
    rw [List.filterMap_eq_nil_iff]
    intro a ha
    rw [if_neg]
    simp [hnm a ha]
  refine ⟨?_, rfl, rfl, rfl, rfl⟩
  have htne : trimL w ≠ [] := by rw [htrim]; exact hne
  simp only [analyze, if_neg hne, if_neg htne]
  rw [htrim]
  unfold analyzeCore
  rw [hcm]
  rfl

/-- Witness for C4 at the concrete input `"notaword"`. -/
theorem claim_C4_witness :
    analyze (some "notaword".data) getDefaultOptions =
        .ok (createUnknownWordResult "notaword".data) ∧
      (createUnknownWordResult "notaword".data).partOfSpeech = .Unknown ∧
      (createUnknownWordResult "notaword".data).confidence = some 0 ∧
      (createUnknownWordResult "notaword".data).morphology =
        some { isPlural := false, isAccusative := false
               root := some "notaword".data } ∧
      (createUnknownWordResult "notaword".data).alternatives = [] :=
  claim_C4 "notaword".data getDefaultOptions (by decide) (by decide) (by decide)

/-! ## Claim C3 -/

/-- Claim C3 — `analyzeWord` on `"la"` in any of its letter cases returns
part of speech Article with confidence exactly 1 (the Article override of
the base confidence score). -/
theorem claim_C3 :
    posOf (analyzeWord (some "la".data)) = some .Article ∧
    confOf (analyzeWord (some "la".data)) = some (some 1) ∧
    posOf (analyzeWord (some "La".data)) = some .Article ∧
    confOf (analyzeWord (some "La".data)) = some (some 1) ∧
    posOf (analyzeWord (some "lA".data)) = some .Article ∧
    confOf (analyzeWord (some "lA".data)) = some (some 1) ∧
    posOf (analyzeWord (some "LA".data)) = some .Article ∧
    confOf (analyzeWord (some "LA".data)) = some (some 1) := by
  decide

/-! ## Claim C2 -/

/-- Claim C2 — the verb endings map to tense and mood as specified:
`analyzeWord "kuras"` is a Verb with root `kur` and tense present;
`"kuris"` has tense past, `"kuros"` tense future, `"kurus"` mood
conditional, `"kuru"` mood imperative, and `"kuri"` mood infinitive. -/
theorem claim_C2 :
    posOf (analyzeWord (some "kuras".data)) = some .Verb ∧
    rootOf (analyzeWord (some "kuras".data)) = some (some "kur".data) ∧
    tenseOf (analyzeWord (some "kuras".data)) = some (some .present) ∧
    tenseOf (analyzeWord (some "kuris".data)) = some (some .past) ∧
    tenseOf (analyzeWord (some "kuros".data)) = some (some .future) ∧
    moodOf (analyzeWord (some "kurus".data)) = some (some .conditional) ∧
    moodOf (analyzeWord (some "kuru".data)) = some (some .imperative) ∧
    moodOf (analyzeWord (some "kuri".data)) = some (some .infinitive) := by
  decide

/-! ## Claim C5 -/

/-- A successful `analyze` call returns exactly the core result on the
trimmed word. -/
theorem analyze_ok_eq {w : List Char} {options : AnalysisOptions}
    {r : AnalysisResult} (h : analyze (some w) options = .ok r) :
    r = analyzeCore (trimL w) options := by
  simp only [analyze] at h
  split at h
  · cases h
  · split at h
    · cases h
    · injection h with h2
      exact h2.symm

/-- `createWord(speechPart, word)` — with the dispatcher's swapped arguments
— throws exactly when the word is the literal string `Article` (the `Article`
constructor rejects every value other than `la`, and no part-of-speech name
lowercases to `la`). -/
theorem createWord_posToString_article (p : PartOfSpeech) :
    createWord (posToString p) "Article".data = .error () := by
  cases p <;> decide

theorem createWord_ok_of_ne_article (v pos : List Char)
    (h : pos ≠ "Article".data) : ∃ wi, createWord v pos = .ok wi := by
  unfold createWord
  split_ifs <;> exact ⟨_, rfl⟩

theorem alternativeFromMatch_confidence {m : MorphAnalyzer × ℚ}
    {clean : List Char} {options : AnalysisOptions}
    (h : clean ≠ "Article".data) :
    (alternativeFromMatch m clean options).confidence = some m.2 := by
  obtain ⟨wi, hwi⟩ := createWord_ok_of_ne_article (posToString m.1.partOfSpeech) clean h
  unfold alternativeFromMatch
  rw [hwi]

theorem filterMap_id_map_some (l : List α) : (l.map some).filterMap id = l := by
  induction l with
  | nil => rfl
  | cons a t ih => simp [List.filterMap_cons, ih]

/-- Claim C5 — for every word `analyze` accepts, the confidences of the
sequence primary-result-then-alternatives are non-increasing, and there are
at most 3 alternatives. -/
theorem claim_C5 (w : List Char) (options : AnalysisOptions)
    (r : AnalysisResult) (h : analyze (some w) options = .ok r) :
    List.Chain' (fun a b : ℚ => b ≤ a)
      ((r.confidence :: r.alternatives.map (fun x => x.confidence)).filterMap id) ∧
    r.alternatives.length ≤ 3 := by
  obtain rfl := analyze_ok_eq h
  clear h
  unfold analyzeCore
  split
  · exact ⟨by simp [createUnknownWordResult], by simp [createUnknownWordResult]⟩
  split
  next => exact ⟨by simp [createUnknownWordResult], by simp [createUnknownWordResult]⟩
  next best rest heq =>
    split
    next => exact ⟨by simp [createUnknownWordResult], by simp [createUnknownWordResult]⟩
    next wi hcw =>
      have hart : trimL w ≠ "Article".data := by
        intro hcl
        rw [hcl, createWord_posToString_article] at hcw
        cases hcw
      have hpair : (best :: rest).Pairwise
          (fun a b : MorphAnalyzer × ℚ => b.2 ≤ a.2) :=
        heq ▸ sortDescBy_pairwise _
      constructor
      · show List.Chain' (fun a b : ℚ => b ≤ a)
          ((some best.2 ::
            (getAlternatives rest (trimL w) options).map (fun x => x.confidence)).filterMap id)
        have hmap : (getAlternatives rest (trimL w) options).map (fun x => x.confidence) =
            (rest.take 3).map (fun m => some m.2) := by
          unfold getAlternatives
          rw [List.map_map]
          exact List.map_congr_left (fun m _ => alternativeFromMatch_confidence hart)
        rw [hmap,
          show some best.2 :: (rest.take 3).map (fun m => some m.2) =
            ((best :: rest.take 3).map (fun m : MorphAnalyzer × ℚ => m.2)).map some by
            simp only [List.map_cons, List.map_map]
            rfl,
          filterMap_id_map_some, List.chain'_map]
        have hsub : (best :: rest.take 3).Sublist (best :: rest) :=
          List.Sublist.cons₂ best (List.take_sublist 3 rest)
        exact (hpair.sublist hsub).chain'
      · show (getAlternatives rest (trimL w) options).length ≤ 3
        unfold getAlternatives
        rw [List.length_map, List.length_take]
        exact min_le_left 3 rest.length

/-- Witness for C5 at the concrete input `"domo"`. -/
theorem claim_C5_witness :
    List.Chain' (fun a b : ℚ => b ≤ a)
      (((analyzeCore (trimL "domo".data) getDefaultOptions).confidence ::
        (analyzeCore (trimL "domo".data) getDefaultOptions).alternatives.map
          (fun x => x.confidence)).filterMap id) ∧
    (analyzeCore (trimL "domo".data) getDefaultOptions).alternatives.length ≤ 3 :=
  claim_C5 "domo".data getDefaultOptions
    (analyzeCore (trimL "domo".data) getDefaultOptions) rfl

/-! ## Claim C9 -/

theorem analyzeSentence_ok_eq {s : List Char} {options : SentenceAnalysisOptions}
    {r : SentenceAnalysisResult}
    (h : analyzeSentence (some s) options = .ok r) :
    r = analyzeSentenceCore (trimL s) options := by
  simp only [analyzeSentence] at h
  split at h
  · cases h
  · split at h
    · cases h
    · injection h with h2
      exact h2.symm

theorem analyzeAll_ok_eq {w : List Char} {options : AnalysisOptions}
    {lst : List WordResult} (h : analyzeAll (some w) options = .ok lst) :
    lst = analyzeAllCore (trimL w) options := by
  simp only [analyzeAll] at h
  split at h
  · cases h
  · split at h
    · cases h
    · injection h with h2
      exact h2.symm

/-- Every branch of the dispatcher sets the result's `word` field to the
(already trimmed) analysed word. -/
theorem analyzeCore_word (clean : List Char) (options : AnalysisOptions) :
    (analyzeCore clean options).word = clean := by
  unfold analyzeCore
  split
  · rfl
  split
  next => rfl
  next => split <;> rfl

/-- Every `analyzeAll` result carries the analysed word in its `word`
field. -/
theorem mem_analyzeAllCore_word {clean : List Char} {options : AnalysisOptions}
    {r : WordResult} (h : r ∈ analyzeAllCore clean options) : r.word = clean := by
  unfold analyzeAllCore at h
  rw [mem_sortDescBy] at h
  obtain ⟨a, -, hfa⟩ := List.mem_filterMap.mp h
  split at hfa
  · split at hfa
    · cases hfa; rfl
    · cases hfa
  · cases hfa

/-- On a non-empty, already-trimmed token the per-token analysis attempt of
the sentence loop succeeds and its result's `word` field is the token
itself. -/
theorem attemptToken_ok_word (options : SentenceAnalysisOptions)
    {t : List Char} (ht : t ≠ []) (htw : trimL t = t) :
    ∃ r, attemptToken options t = .ok r ∧ r.word = t := by
  have htne : trimL t ≠ [] := by rw [htw]; exact ht
  have hana : analyze (some t) = .ok (analyzeCore (trimL t) getDefaultOptions) := by
    simp only [analyze, if_neg ht, if_neg htne]
  have hanaw : (analyzeCore (trimL t) getDefaultOptions).word = t := by
    rw [analyzeCore_word, htw]
  unfold attemptToken
  split
  · have hall : analyzeAll (some t) = .ok (analyzeAllCore (trimL t) {}) := by
      simp only [analyzeAll, if_neg ht, if_neg htne]
    rw [hall]
    cases hl : analyzeAllCore (trimL t) {} with
    | nil => exact ⟨_, hana, hanaw⟩
    | cons f rl =>
      refine ⟨_, rfl, ?_⟩
      show f.word = t
      have hf : f ∈ analyzeAllCore (trimL t) {} := by
        rw [hl]; exact List.mem_cons_self f rl
      rw [mem_analyzeAllCore_word hf, htw]
  · exact ⟨_, hana, hanaw⟩

/-- The option filtering never changes the `word` field except for the
`preserveCase` override, which writes the token itself. -/
theorem applyOptions_word (options : SentenceAnalysisOptions) (t : List Char)
    (r0 : AnalysisResult) (h : r0.word = t) :
    (applyOptions options t r0).word = t := by
  unfold applyOptions
  split_ifs <;> first | rfl | exact h

theorem processToken_word (options : SentenceAnalysisOptions)
    {t : List Char} (ht : t ≠ []) (htw : trimL t = t) :
    (processToken options t).word = t := by
  obtain ⟨r, hr, hw⟩ := attemptToken_ok_word options ht htw
  unfold processToken
  rw [hr]
  exact applyOptions_word options t r hw

/-- Claim C9, amended — `analyzeSentence` keeps, for every token, the
token's own characters (original casing, and trim-normalized only in the
sense that tokens carry no surrounding whitespace) in the result's `word`
field, for *both* values of `preserveCase`: the success path never
lower-cases, and the lower-casing branch exists only in the per-token error
fallback, which is unreachable because tokens are non-empty and
whitespace-free.  (The original claim's assertion that `preserveCase = false`
yields a lower-cased `word` field is refuted by `claim_C9_counterexample`.) -/
theorem claim_C9 (s : List Char) (options : SentenceAnalysisOptions)
    (r : SentenceAnalysisResult)
    (h : analyzeSentence (some s) options = .ok r) :
    r.words.map (fun w => w.word) = tokenize (trimL s) := by
  obtain rfl := analyzeSentence_ok_eq h
  show ((tokenize (trimL s)).map (processToken options)).map (fun w => w.word) =
    tokenize (trimL s)
  rw [List.map_map]
  conv_rhs => rw [← List.map_id (tokenize (trimL s))]
  apply List.map_congr_left
  intro t ht
  obtain ⟨ht1, ht2⟩ := tokenize_tokens_clean t ht
  exact processToken_word options ht1 (trimL_of_no_ws ht2)

/-- Witness for the amended C9 at the sentence `"Mi amas"` with the default
options (`preserveCase = false`). -/
theorem claim_C9_witness :
    (analyzeSentenceCore (trimL "Mi amas".data) {}).words.map (fun w => w.word) =
      tokenize (trimL "Mi amas".data) :=
  claim_C9 "Mi amas".data {} (analyzeSentenceCore (trimL "Mi amas".data) {}) rfl

/-- Counterexample to C9 as stated: with the default options
(`preserveCase = false`) the token `Mi` is analysed to a result whose `word`
field is `Mi`, not the lower-cased `mi` the claim predicts. -/
theorem claim_C9_counterexample :
    ({} : SentenceAnalysisOptions).preserveCase = false ∧
    sentenceWordsOf (analyzeSentence (some "Mi".data)) = some ["Mi".data] ∧
    sentenceWordsOf (analyzeSentence (some "Mi".data)) ≠
      some [toLower "Mi".data] := by
  refine ⟨rfl, rfl, ?_⟩
  have e : sentenceWordsOf (analyzeSentence (some "Mi".data)) =
      some ["Mi".data] := rfl
  rw [e]
  decide

/-! ## Claim C6 -/

/-- No analyzer in the table is tagged Unknown. -/
theorem analyzers_pos_ne_unknown :
    ∀ a ∈ ALL_MORPHOLOGICAL_ANALYZERS, a.partOfSpeech ≠ .Unknown := by
  intro a ha
  simp only [ALL_MORPHOLOGICAL_ANALYZERS, List.mem_cons, List.not_mem_nil,
    or_false] at ha
  rcases ha with rfl | rfl | rfl | rfl | rfl | rfl | rfl | rfl | rfl | rfl <;> decide

/-- A dispatcher result is either tagged with a real analyzer's part of
speech (never Unknown) or is the Unknown stub of confidence 0. -/
theorem analyzeCore_not_unknown_or_conf (clean : List Char)
    (options : AnalysisOptions) :
    (analyzeCore clean options).partOfSpeech ≠ .Unknown ∨
      (analyzeCore clean options).confidence = some 0 := by
  unfold analyzeCore
  split
  · exact Or.inr rfl
  split
  next => exact Or.inr rfl
  next best rest heq =>
    split
    next => exact Or.inr rfl
    next wi hcw =>
      left
      show best.1.partOfSpeech ≠ .Unknown
      have hb : best ∈ sortDescBy (fun m : MorphAnalyzer × ℚ => m.2)
          (collectMatches clean) := by
        rw [heq]; exact List.mem_cons_self best rest
      rw [mem_sortDescBy] at hb
      obtain ⟨ha, -, -⟩ := mem_collectMatches hb
      exact analyzers_pos_ne_unknown best.1 ha

/-- A dispatcher result tagged Unknown always carries confidence 0. -/
theorem analyzeCore_unknown_conf (clean : List Char) (options : AnalysisOptions)
    (h : (analyzeCore clean options).partOfSpeech = .Unknown) :
    (analyzeCore clean options).confidence = some 0 := by
  rcases analyzeCore_not_unknown_or_conf clean options with hne | hc
  · exact absurd h hne
  · exact hc

/-- An `analyzeAll` result is never tagged Unknown. -/
theorem mem_analyzeAllCore_pos {clean : List Char} {options : AnalysisOptions}
    {r : WordResult} (h : r ∈ analyzeAllCore clean options) :
    r.partOfSpeech ≠ .Unknown := by
  unfold analyzeAllCore at h
  rw [mem_sortDescBy] at h
  obtain ⟨a, ha, hfa⟩ := List.mem_filterMap.mp h
  split at hfa
  · split at hfa
    · cases hfa
      exact analyzers_pos_ne_unknown a ha
    · cases hfa
  · cases hfa

theorem applyOptions_partOfSpeech (options : SentenceAnalysisOptions)
    (t : List Char) (r : AnalysisResult) :
    (applyOptions options t r).partOfSpeech = r.partOfSpeech := by
  unfold applyOptions
  split_ifs <;> rfl

theorem applyOptions_confidence (options : SentenceAnalysisOptions)
    (t : List Char) (r : AnalysisResult) :
    (applyOptions options t r).confidence = r.confidence ∨
      (applyOptions options t r).confidence = none := by
  unfold applyOptions
  split_ifs <;> first | exact Or.inr rfl | exact Or.inl rfl

/-- The pipeline invariant behind the statistics claim: a word result tagged
Unknown carries confidence 0 (or none at all, after `includeConfidence:
false` stripping). -/
theorem processToken_unknown_conf (options : SentenceAnalysisOptions)
    (t : List Char) (h : (processToken options t).partOfSpeech = .Unknown) :
    (processToken options t).confidence = some 0 ∨
      (processToken options t).confidence = none := by
  unfold processToken at h ⊢
  cases hA : attemptToken options t with
  | error e => exact Or.inl rfl
  | ok r0 =>
    rw [hA] at h
    dsimp only at h ⊢
    rw [applyOptions_partOfSpeech] at h
    have hr0 : r0.confidence = some 0 ∨ r0.confidence = none := by
      unfold attemptToken at hA
      split at hA
      · cases hall : analyzeAll (some t) with
        | error e => rw [hall] at hA; cases hA
        | ok lst =>
          rw [hall] at hA
          cases lst with
          | nil =>
            obtain rfl := analyze_ok_eq hA
            exact Or.inl (analyzeCore_unknown_conf _ _ h)
          | cons f rl =>
            injection hA with hA2
            have hmem : f ∈ analyzeAllCore (trimL t) {} :=
              (analyzeAll_ok_eq hall) ▸ List.mem_cons_self f rl
            have hpos : f.partOfSpeech = .Unknown := by
              rw [← hA2] at h
              exact h
            exact absurd hpos (mem_analyzeAllCore_pos hmem)
      · obtain rfl := analyze_ok_eq hA
        exact Or.inl (analyzeCore_unknown_conf _ _ h)
    rcases applyOptions_confidence options t r0 with he | he <;> rw [he]
    · exact hr0
    · exact Or.inr rfl

theorem lookup_bump (m : List (PartOfSpeech × Nat)) (p tag : PartOfSpeech) :
    lookupCount (bump m p) tag =
      if tag = p then some ((lookupCount m tag).getD 0 + 1)
      else lookupCount m tag := by
  induction m with
  | nil =>
    by_cases h : tag = p
    · subst h; simp [bump, lookupCount]
    · simp [bump, lookupCount, h, Ne.symm h]
  | cons qn t ih =>
    obtain ⟨q, n⟩ := qn
    by_cases h1 : q = p
    · subst h1
      by_cases h2 : tag = q
      · subst h2; simp [bump, lookupCount]
      · simp [bump, lookupCount, h2, Ne.symm h2]
    · by_cases h3 : q = tag
      · subst h3
        simp [bump, lookupCount, h1]
      · simp [bump, lookupCount, h1, h3, ih]

theorem lookupCount_foldl_bump (ws : List AnalysisResult)
    (m : List (PartOfSpeech × Nat)) (tag : PartOfSpeech) :
    lookupCount (ws.foldl (fun acc w => bump acc w.partOfSpeech) m) tag =
      if (ws.filter (fun w => w.partOfSpeech = tag)).length = 0 then
        lookupCount m tag
      else
        some ((lookupCount m tag).getD 0 +
          (ws.filter (fun w => w.partOfSpeech = tag)).length) := by
  induction ws generalizing m with
  | nil => simp
  | cons w t ih =>
    rw [List.foldl_cons, ih]
    by_cases hw : w.partOfSpeech = tag
    · have hfilter : ((w :: t).filter (fun x => x.partOfSpeech = tag)).length =
          (t.filter (fun x => x.partOfSpeech = tag)).length + 1 := by
        simp [List.filter_cons, hw]
      rw [hfilter, lookup_bump,
        if_pos (show tag = w.partOfSpeech from hw.symm),
        if_neg (Nat.succ_ne_zero _)]
      split_ifs with h1
      · rw [h1]
      · simp only [Option.getD_some]
        congr 1
        omega
    · have hfilter : ((w :: t).filter (fun x => x.partOfSpeech = tag)) =
          t.filter (fun x => x.partOfSpeech = tag) := by
        simp [List.filter_cons, hw]
      rw [hfilter, lookup_bump,
        if_neg (show ¬ tag = w.partOfSpeech from fun hh => hw hh.symm)]

theorem foldl_add_confGetD (l : List AnalysisResult) (init : ℚ) :
    l.foldl (fun s w => s + w.confidence.getD 0) init =
      init + (l.map (fun w => w.confidence.getD 0)).sum := by
  induction l generalizing init with
  | nil => simp
  | cons w t ih => simp [List.foldl_cons, ih, add_assoc]

theorem filterMap_conf_sum_length (ws : List AnalysisResult) :
    (ws.filterMap (fun w => w.confidence)).sum =
      ((ws.filter (fun w => w.confidence.isSome)).map
        (fun w => w.confidence.getD 0)).sum ∧
    (ws.filterMap (fun w => w.confidence)).length =
      (ws.filter (fun w => w.confidence.isSome)).length := by
  induction ws with
  | nil => exact ⟨rfl, rfl⟩
  | cons w t ih =>
    cases hc : w.confidence with
    | none => simpa [List.filterMap_cons, List.filter_cons, hc] using ih
    | some c => simp [List.filterMap_cons, List.filter_cons, hc, ih.1, ih.2]

theorem sum_filter_unknown_zero (ws : List AnalysisResult)
    (hinv : ∀ w ∈ ws, w.partOfSpeech = .Unknown →
      w.confidence = some 0 ∨ w.confidence = none) :
    ((ws.filter (fun w =>
        w.partOfSpeech ≠ .Unknown && w.confidence.isSome)).map
      (fun w => w.confidence.getD 0)).sum =
    ((ws.filter (fun w => w.confidence.isSome)).map
      (fun w => w.confidence.getD 0)).sum := by
  induction ws with
  | nil => rfl
  | cons w t ih =>
    have hinvt : ∀ x ∈ t, x.partOfSpeech = .Unknown →
        x.confidence = some 0 ∨ x.confidence = none :=
      fun x hx => hinv x (List.mem_cons_of_mem w hx)
    by_cases hu : w.partOfSpeech = .Unknown
    · cases hc : w.confidence with
      | none => simpa [List.filter_cons, hu, hc] using ih hinvt
      | some c =>
        have hc0 : c = 0 := by
          rcases hinv w (List.mem_cons_self w t) hu with h0 | h0
          · rw [hc] at h0; injection h0
          · rw [hc] at h0; cases h0
        subst hc0
        simpa [List.filter_cons, hu, hc] using ih hinvt
    · cases hs : w.confidence.isSome with
      | false => simpa [List.filter_cons, hu, hs] using ih hinvt
      | true =>
        simp [List.filter_cons, hu, hs]
        simpa using ih hinvt

theorem confidenceSum_spec (ws : List AnalysisResult)
    (hinv : ∀ w ∈ ws, w.partOfSpeech = .Unknown →
      w.confidence = some 0 ∨ w.confidence = none) :
    confidenceSumOf ws = (ws.filterMap (fun w => w.confidence)).sum := by
  unfold confidenceSumOf
  rw [foldl_add_confGetD, zero_add, (filterMap_conf_sum_length ws).1]
  exact sum_filter_unknown_zero ws hinv

/-- The statistics field computed by the source equals the spec's "mean
confidence over all words that carry a confidence value (0 if none)": the
denominators agree by definition, and the numerators agree because every
Unknown-tagged word in the pipeline carries confidence 0 or none. -/
theorem calculateStatistics_avg (ws : List AnalysisResult)
    (hinv : ∀ w ∈ ws, w.partOfSpeech = .Unknown →
      w.confidence = some 0 ∨ w.confidence = none) :
    (calculateStatistics ws).averageConfidence = specAverageConfidence ws := by
  show (if 0 < wordsWithConfidenceOf ws then
      confidenceSumOf ws / (wordsWithConfidenceOf ws : ℚ) else 0) = _
  unfold specAverageConfidence
  have hlen := (filterMap_conf_sum_length ws).2
  have hsum := confidenceSum_spec ws hinv
  rcases Nat.eq_zero_or_pos (ws.filterMap (fun w => w.confidence)).length
    with h0 | h0
  · have he : (ws.filterMap (fun w => w.confidence)).isEmpty = true := by
      rw [List.isEmpty_iff_length_eq_zero]
      exact h0
    rw [if_pos he]
    have hwc : ¬ 0 < wordsWithConfidenceOf ws := by
      unfold wordsWithConfidenceOf
      omega
    rw [if_neg hwc]
  · have he : ¬ (ws.filterMap (fun w => w.confidence)).isEmpty = true := by
      rw [List.isEmpty_iff_length_eq_zero]
      omega
    rw [if_neg he]
    have hwc : 0 < wordsWithConfidenceOf ws := by
      unfold wordsWithConfidenceOf
      omega
    rw [if_pos hwc, hsum]
    congr 1
    unfold wordsWithConfidenceOf
    rw [← hlen]

/-- Claim C6 — for every sentence `analyzeSentence` accepts:
`totalWords` is the token count, `analyzedWords` counts words whose tag is
not Unknown, `analyzedWords + unknownWords = totalWords`,
`partOfSpeechCounts` maps exactly the observed tags (including Unknown) to
their occurrence counts, and `averageConfidence` is the mean of `confidence`
over all words carrying a numeric confidence value (0 when none do). -/
theorem claim_C6 (s : List Char) (options : SentenceAnalysisOptions)
    (r : SentenceAnalysisResult)
    (h : analyzeSentence (some s) options = .ok r) :
    r.statistics.totalWords = r.words.length ∧
    r.statistics.analyzedWords =
      (r.words.filter (fun w => w.partOfSpeech ≠ .Unknown)).length ∧
    r.statistics.analyzedWords + r.statistics.unknownWords =
      r.statistics.totalWords ∧
    (∀ tag : PartOfSpeech,
      lookupCount r.statistics.partOfSpeechCounts tag =
        if 0 < (r.words.filter (fun w => w.partOfSpeech = tag)).length then
          some ((r.words.filter (fun w => w.partOfSpeech = tag)).length)
        else none) ∧
    r.statistics.averageConfidence = specAverageConfidence r.words := by
  obtain rfl := analyzeSentence_ok_eq h
  have hinv : ∀ w ∈ (analyzeSentenceCore (trimL s) options).words,
      w.partOfSpeech = .Unknown →
        w.confidence = some 0 ∨ w.confidence = none := by
    intro w hw
    replace hw : w ∈ (tokenize (trimL s)).map (processToken options) := hw
    obtain ⟨tk, -, rfl⟩ := List.mem_map.mp hw
    exact processToken_unknown_conf options tk
  refine ⟨rfl, rfl, ?_, ?_, ?_⟩
  · have hle : ((analyzeSentenceCore (trimL s) options).words.filter
        (fun w => w.partOfSpeech ≠ PartOfSpeech.Unknown)).length ≤
        (analyzeSentenceCore (trimL s) options).words.length :=
      List.length_filter_le _ _
    show ((analyzeSentenceCore (trimL s) options).words.filter
        (fun w => w.partOfSpeech ≠ PartOfSpeech.Unknown)).length +
      ((analyzeSentenceCore (trimL s) options).words.length -
        ((analyzeSentenceCore (trimL s) options).words.filter
          (fun w => w.partOfSpeech ≠ PartOfSpeech.Unknown)).length) =
      (analyzeSentenceCore (trimL s) options).words.length
    omega
  · intro tag
    show lookupCount
      ((analyzeSentenceCore (trimL s) options).words.foldl
        (fun m w => bump m w.partOfSpeech) []) tag = _
    rw [lookupCount_foldl_bump]
    rcases Nat.eq_zero_or_pos
        (((analyzeSentenceCore (trimL s) options).words.filter
          (fun w => w.partOfSpeech = tag)).length) with h0 | h0
    · rw [if_pos h0, if_neg (by omega)]
      rfl
    · rw [if_neg (by omega), if_pos h0]
      simp [lookupCount]
  · exact calculateStatistics_avg _ hinv

/-- Witness for C6 at the sentence `"la hundo"` with default options. -/
theorem claim_C6_witness :
    (analyzeSentenceCore (trimL "la hundo".data) {}).statistics.totalWords =
      (analyzeSentenceCore (trimL "la hundo".data) {}).words.length ∧
    (analyzeSentenceCore (trimL "la hundo".data) {}).statistics.analyzedWords =
      ((analyzeSentenceCore (trimL "la hundo".data) {}).words.filter
        (fun w => w.partOfSpeech ≠ .Unknown)).length ∧
    (analyzeSentenceCore (trimL "la hundo".data) {}).statistics.analyzedWords +
        (analyzeSentenceCore (trimL "la hundo".data) {}).statistics.unknownWords =
      (analyzeSentenceCore (trimL "la hundo".data) {}).statistics.totalWords ∧
    (∀ tag : PartOfSpeech,
      lookupCount
          (analyzeSentenceCore (trimL "la hundo".data) {}).statistics.partOfSpeechCounts
          tag =
        if 0 < ((analyzeSentenceCore (trimL "la hundo".data) {}).words.filter
            (fun w => w.partOfSpeech = tag)).length then
          some (((analyzeSentenceCore (trimL "la hundo".data) {}).words.filter
            (fun w => w.partOfSpeech = tag)).length)
        else none) ∧
    (analyzeSentenceCore (trimL "la hundo".data) {}).statistics.averageConfidence =
      specAverageConfidence (analyzeSentenceCore (trimL "la hundo".data) {}).words :=
  claim_C6 "la hundo".data {}
    (analyzeSentenceCore (trimL "la hundo".data) {}) rfl

/-! ## Claim C1: shape lemmas for well-formed nouns

Throughout, a well-formed noun is `root ++ ['o'] ++ s` with `s` one of `""`,
`"j"`, `"n"`, `"jn"`, the root at least two letters of the class
`[a-zA-ZĉĝĵĥŝŭĈĜĴĤŜŬ]`. -/

/-- The four grammatical endings of the `(j?n?)` group. -/
theorem jn_cases (s : List Char) (hs : s ∈ jnSuffixes) :
    s = [] ∨ s = ['j'] ∨ s = ['n'] ∨ s = ['j', 'n'] := by
  simp only [jnSuffixes, List.mem_cons, List.not_mem_nil, or_false] at hs
  exact hs

theorem littera_not_ws {c : Char} (h : littera c = true) : jsWs c = false := by
  by_contra hws
  rw [Bool.not_eq_false] at hws
  simp only [jsWs, Bool.or_eq_true, decide_eq_true_eq] at hws
  rcases hws with ((((rfl | rfl) | rfl) | rfl) | rfl) | rfl <;>
    exact absurd h (by decide)

theorem noun_shape_no_ws {root s : List Char} (hroot : root.all littera = true)
    (hs4 : s = [] ∨ s = ['j'] ∨ s = ['n'] ∨ s = ['j', 'n']) :
    (root ++ ['o'] ++ s).all (fun c => !jsWs c) = true := by
  have hr : root.all (fun c => !jsWs c) = true := by
    rw [List.all_eq_true] at hroot ⊢
    intro c hc
    simpa using littera_not_ws (hroot c hc)
  rcases hs4 with rfl | rfl | rfl | rfl <;> simp_all [List.all_append] <;>
    decide

/-- `endsWith` against a single-character suffix compares the last
characters. -/
theorem endsWith_concat (l : List Char) (c d : Char) :
    endsWith (l ++ [c]) [d] = (d == c) := by
  simp [endsWith, List.isSuffixOf, List.isPrefixOf]

/-- The anchored `root cls{min,} ++ tail` pattern accepts its own
decomposition. -/
theorem matchTail_append {cls : Char → Bool} {min : Nat} {root tail : List Char}
    (hroot : root.all cls = true) (hlen : min ≤ root.length) :
    matchTail cls min (root ++ tail) tail = true := by
  unfold matchTail
  have h1 : endsWith (root ++ tail) tail = true := by
    rw [endsWith, List.isSuffixOf_iff_suffix]
    exact List.suffix_append root tail
  have h2 : tail.length + min ≤ (root ++ tail).length := by
    rw [List.length_append]
    omega
  have h3 : (root ++ tail).take ((root ++ tail).length - tail.length) = root := by
    have : (root ++ tail).length - tail.length = root.length := by
      rw [List.length_append]
      omega
    rw [this]
    exact List.take_left' rfl
  rw [h1, h3, hroot]
  simp only [Bool.true_and, Bool.and_true, decide_eq_true_eq]
  exact h2

theorem nounMatch_shape {root s : List Char} (hroot : root.all littera = true)
    (hlen : 2 ≤ root.length)
    (hs4 : s = [] ∨ s = ['j'] ∨ s = ['n'] ∨ s = ['j', 'n']) :
    nounMatch (root ++ ['o'] ++ s) = true := by
  unfold nounMatch
  rcases hs4 with rfl | rfl | rfl | rfl
  · have h := @matchTail_append _ _ _ ['o'] hroot hlen
    simp only [List.append_nil]
    simp [h]
  · have h := @matchTail_append _ _ _ ['o', 'j'] hroot hlen
    have h2 : matchTail littera 2 (root ++ ['o'] ++ ['j']) ['o', 'j'] = true := by
      rw [List.append_assoc]
      exact h
    simp [h, h2]
  · have h := @matchTail_append _ _ _ ['o', 'n'] hroot hlen
    have h2 : matchTail littera 2 (root ++ ['o'] ++ ['n']) ['o', 'n'] = true := by
      rw [List.append_assoc]
      exact h
    simp [h, h2]
  · have h := @matchTail_append _ _ _ ['o', 'j', 'n'] hroot hlen
    have h2 : matchTail littera 2 (root ++ ['o'] ++ ['j', 'n']) ['o', 'j', 'n'] = true := by
      rw [List.append_assoc]
      exact h
    simp [h, h2]

theorem canonicalNounShape_shape {root s : List Char}
    (hroot : root.all littera = true) (hlen : 2 ≤ root.length)
    (hs4 : s = [] ∨ s = ['j'] ∨ s = ['n'] ∨ s = ['j', 'n']) :
    canonicalNounShape (root ++ ['o'] ++ s) = true := by
  unfold canonicalNounShape
  have hlen1 : 1 ≤ root.length := by omega
  rcases hs4 with rfl | rfl | rfl | rfl
  · have h := @matchTail_append _ _ _ ['o'] hroot hlen1
    simp only [List.append_nil]
    simp [h]
  · have h := @matchTail_append _ _ _ ['o', 'j'] hroot hlen1
    have h2 : matchTail littera 1 (root ++ ['o'] ++ ['j']) ['o', 'j'] = true := by
      rw [List.append_assoc]
      exact h
    simp [h, h2]
  · have h := @matchTail_append _ _ _ ['o', 'n'] hroot hlen1
    have h2 : matchTail littera 1 (root ++ ['o'] ++ ['n']) ['o', 'n'] = true := by
      rw [List.append_assoc]
      exact h
    simp [h, h2]
  · have h := @matchTail_append _ _ _ ['o', 'j', 'n'] hroot hlen1
    have h2 : matchTail littera 1 (root ++ ['o'] ++ ['j', 'n']) ['o', 'j', 'n'] = true := by
      rw [List.append_assoc]
      exact h
    simp [h, h2]

/-- A well-formed noun ends in `o`, `j` or `n`, never in a verb ending. -/
theorem canonicalVerbShape_shape_false {root s : List Char}
    (hs4 : s = [] ∨ s = ['j'] ∨ s = ['n'] ∨ s = ['j', 'n']) :
    canonicalVerbShape (root ++ ['o'] ++ s) = false := by
  rcases hs4 with rfl | rfl | rfl | rfl <;>
    simp [canonicalVerbShape, matchTail, endsWith, List.isSuffixOf,
      List.isPrefixOf, List.reverse_append]

/-- A well-formed noun never matches the canonical adjective shape. -/
theorem canonicalAdjectiveShape_shape_false {root s : List Char}
    (hs4 : s = [] ∨ s = ['j'] ∨ s = ['n'] ∨ s = ['j', 'n']) :
    canonicalAdjectiveShape (root ++ ['o'] ++ s) = false := by
  rcases hs4 with rfl | rfl | rfl | rfl <;>
    simp [canonicalAdjectiveShape, matchTail, endsWith, List.isSuffixOf,
      List.isPrefixOf, List.reverse_append]

/-- A well-formed noun never matches the canonical adverb shape. -/
theorem canonicalAdverbShape_shape_false {root s : List Char}
    (hs4 : s = [] ∨ s = ['j'] ∨ s = ['n'] ∨ s = ['j', 'n']) :
    canonicalAdverbShape (root ++ ['o'] ++ s) = false := by
  rcases hs4 with rfl | rfl | rfl | rfl <;>
    simp [canonicalAdverbShape, matchTail, endsWith, List.isSuffixOf,
      List.isPrefixOf, List.reverse_append]

/-! ### Evaluations of the confidence heuristic per part of speech -/

theorem calcConf_noun_eval {w : List Char}
    (hcanon : canonicalNounShape w = true) :
    calculateConfidence .Noun w = if 5 < w.length then 1 else 4 / 5 := by
  simp only [calculateConfidence, hcanon]
  simp
  split_ifs <;> norm_num [min_def]

theorem calcConf_verb_le {w : List Char}
    (h : canonicalVerbShape w = false) :
    calculateConfidence .Verb w ≤ 7 / 10 := by
  simp only [calculateConfidence, h]
  simp
  split_ifs <;> norm_num [min_def]

theorem calcConf_adjective_le {w : List Char}
    (h : canonicalAdjectiveShape w = false) :
    calculateConfidence .Adjective w ≤ 7 / 10 := by
  simp only [calculateConfidence, h]
  simp
  split_ifs <;> norm_num [min_def]

theorem calcConf_adverb_eval {w : List Char}
    (h : canonicalAdverbShape w = false) :
    calculateConfidence .Adverb w = 1 / 2 := by
  simp only [calculateConfidence, h]
  simp
  norm_num [min_def]

theorem calcConf_conjunction_eval (w : List Char) :
    calculateConfidence .Conjunction w = 1 / 2 := by
  simp [calculateConfidence]
  norm_num [min_def]

theorem calcConf_interjection_eval (w : List Char) :
    calculateConfidence .Interjection w = 1 / 2 := by
  simp [calculateConfidence]
  norm_num [min_def]

theorem calcConf_preposition_eval (w : List Char) :
    calculateConfidence .Preposition w = 1 / 2 := by
  simp [calculateConfidence]
  norm_num [min_def]

theorem calcConf_numeral_eval (w : List Char) :
    calculateConfidence .Numeral w =
      if BASIC_NUMBERS.contains (toLower w) then 19 / 20 else 1 / 2 := by
  simp only [calculateConfidence]
  simp
  split_ifs <;> norm_num [min_def]

theorem calcConf_pronoun_eval (w : List Char) :
    calculateConfidence .Pronoun w =
      if correlativePronounsConf.contains (toLower w) then 9 / 10 else 1 / 2 := by
  simp only [calculateConfidence]
  simp
  split_ifs <;> norm_num [min_def]

/-! ### The absolute confidence overrides cannot beat the noun score

Of the fifteen basic numerals only `milion` has the shape of a well-formed
noun — and it is 6 characters long, so the noun score is already 1 there; of
the forty listed correlative pronouns only `kio`, `tio`, `ĉio`, `nenio` have
it (`io` is too short for the noun pattern). -/

theorem basic_compat_len :
    ∀ c ∈ BASIC_NUMBERS,
      ∀ sr ∈ ([[], ['j'], ['n'], ['n', 'j']] : List (List Char)),
        (sr ++ ['o']).isPrefixOf c.reverse = true → c.length = 6 := by
  decide

theorem correl_compat_mem :
    ∀ c ∈ correlativePronounsConf,
      ∀ sr ∈ ([[], ['j'], ['n'], ['n', 'j']] : List (List Char)),
        (sr ++ ['o']).isPrefixOf c.reverse = true → 3 ≤ c.length →
          c ∈ (["kio", "tio", "ĉio", "nenio"].map String.data) := by
  decide

theorem toLower_shape {root s : List Char}
    (hs4 : s = [] ∨ s = ['j'] ∨ s = ['n'] ∨ s = ['j', 'n']) :
    toLower (root ++ ['o'] ++ s) = toLower root ++ ['o'] ++ s := by
  have ho : lowerChar 'o' = 'o' := by decide
  have hj : lowerChar 'j' = 'j' := by decide
  have hn : lowerChar 'n' = 'n' := by decide
  rcases hs4 with rfl | rfl | rfl | rfl <;>
    simp [toLower, List.map_append, ho, hj, hn]

theorem shape_prefix_rev {root s : List Char}
    (hs4 : s = [] ∨ s = ['j'] ∨ s = ['n'] ∨ s = ['j', 'n']) :
    (s.reverse ++ ['o']).isPrefixOf
      (toLower (root ++ ['o'] ++ s)).reverse = true := by
  rw [toLower_shape hs4, List.isPrefixOf_iff_prefix, List.reverse_append,
    List.reverse_append, ← List.append_assoc]
  exact List.prefix_append _ _

theorem shape_srev_mem {s : List Char}
    (hs4 : s = [] ∨ s = ['j'] ∨ s = ['n'] ∨ s = ['j', 'n']) :
    s.reverse ∈ ([[], ['j'], ['n'], ['n', 'j']] : List (List Char)) := by
  rcases hs4 with rfl | rfl | rfl | rfl <;> decide

theorem toLower_shape_length {root s : List Char} :
    (toLower (root ++ ['o'] ++ s)).length = root.length + 1 + s.length := by
  simp [toLower]
  omega

theorem basic_contains_len {root s : List Char}
    (hs4 : s = [] ∨ s = ['j'] ∨ s = ['n'] ∨ s = ['j', 'n'])
    (hcon : BASIC_NUMBERS.contains (toLower (root ++ ['o'] ++ s)) = true) :
    (root ++ ['o'] ++ s).length = 6 := by
  have hmem : toLower (root ++ ['o'] ++ s) ∈ BASIC_NUMBERS := by
    simpa using hcon
  have h6 := basic_compat_len _ hmem s.reverse (shape_srev_mem hs4)
    (shape_prefix_rev hs4)
  have hl := @toLower_shape_length root s
  have hw : (root ++ ['o'] ++ s).length = root.length + 1 + s.length := by
    simp
    omega
  omega

theorem correl_contains_mem {root s : List Char} (hlen : 2 ≤ root.length)
    (hs4 : s = [] ∨ s = ['j'] ∨ s = ['n'] ∨ s = ['j', 'n'])
    (hcon : correlativePronounsConf.contains
      (toLower (root ++ ['o'] ++ s)) = true) :
    toLower (root ++ ['o'] ++ s) ∈
      (["kio", "tio", "ĉio", "nenio"].map String.data) := by
  have hmem : toLower (root ++ ['o'] ++ s) ∈ correlativePronounsConf := by
    simpa using hcon
  have hl := @toLower_shape_length root s
  exact correl_compat_mem _ hmem s.reverse (shape_srev_mem hs4)
    (shape_prefix_rev hs4) (by omega)

/-! ### Morphology extraction on well-formed nouns -/

theorem checkAccusative_shape {root s : List Char}
    (hs4 : s = [] ∨ s = ['j'] ∨ s = ['n'] ∨ s = ['j', 'n']) :
    checkAccusative (root ++ ['o'] ++ s) = s.contains 'n' := by
  rcases hs4 with rfl | rfl | rfl | rfl <;>
    simp [checkAccusative, endsWith, List.isSuffixOf, List.isPrefixOf,
      List.reverse_append]

theorem checkPlural_shape {root s : List Char}
    (hs4 : s = [] ∨ s = ['j'] ∨ s = ['n'] ∨ s = ['j', 'n']) :
    checkPlural (root ++ ['o'] ++ s) = s.contains 'j' := by
  rcases hs4 with rfl | rfl | rfl | rfl <;>
    simp [checkPlural, endsWith, List.isSuffixOf, List.isPrefixOf,
      List.reverse_append]

theorem nounExtractRoot_shape {root s : List Char}
    (hs4 : s = [] ∨ s = ['j'] ∨ s = ['n'] ∨ s = ['j', 'n']) :
    nounExtractRoot (root ++ ['o'] ++ s) = root := by
  rcases hs4 with rfl | rfl | rfl | rfl <;>
    simp [nounExtractRoot, endsWith, List.isSuffixOf, List.isPrefixOf,
      List.reverse_append]

/-- If `x`'s key strictly dominates every other element of `l`, `x` is the
head of the descending sort. -/
theorem sortDescBy_head_unique_max {key : α → ℚ} {l : List α} {x : α}
    (hx : x ∈ l) (hmax : ∀ y ∈ l, y ≠ x → key y < key x) :
    ∃ tail, sortDescBy key l = x :: tail := by
  cases hs : sortDescBy key l with
  | nil =>
    exfalso
    have hx2 := (@mem_sortDescBy _ key l x).mpr hx
    rw [hs] at hx2
    cases hx2
  | cons z zs =>
    have hz : z ∈ l := (@mem_sortDescBy _ key l z).mp
      (by rw [hs]; exact List.mem_cons_self z zs)
    have hxz : key x ≤ key z := by
      have hp := @sortDescBy_pairwise _ key l
      rw [hs] at hp
      have hx2 : x ∈ z :: zs := by
        rw [← hs]
        exact (@mem_sortDescBy _ key l x).mpr hx
      rcases List.mem_cons.mp hx2 with rfl | hx3
      · exact le_refl _
      · exact (List.pairwise_cons.mp hp).1 x hx3
    by_cases hzx : z = x
    · subst hzx
      exact ⟨zs, rfl⟩
    · exact absurd hxz (not_le.mpr (hmax z hz hzx))

/-- When one analyzer's entry strictly dominates all other collected matches
and the word is not the string `Article`, `analyzeCore` reports that
analyzer's part of speech, morphology and confidence. -/
theorem analyzeCore_best (w : List Char) (opts : AnalysisOptions)
    (a : MorphAnalyzer)
    (hmem : (a, calculateConfidence a.partOfSpeech w) ∈ collectMatches w)
    (hmax : ∀ y ∈ collectMatches w,
      y ≠ (a, calculateConfidence a.partOfSpeech w) →
      y.2 < calculateConfidence a.partOfSpeech w)
    (hart : w ≠ "Article".data) :
    (analyzeCore w opts).partOfSpeech = a.partOfSpeech ∧
    (analyzeCore w opts).morphology = some (a.extractMorphology w opts) ∧
    (analyzeCore w opts).confidence =
      some (calculateConfidence a.partOfSpeech w) ∧
    (analyzeCore w opts).word = w := by
  obtain ⟨tail, hsort⟩ := sortDescBy_head_unique_max hmem hmax
  have hnempty : ¬ (collectMatches w).isEmpty = true := by
    rw [List.isEmpty_iff]
    intro h0
    rw [h0] at hmem
    cases hmem
  obtain ⟨wi, hwi⟩ :=
    createWord_ok_of_ne_article (posToString a.partOfSpeech) w hart
  unfold analyzeCore
  rw [if_neg hnempty, hsort]
  dsimp only
  rw [hwi]
  exact ⟨rfl, rfl, rfl, rfl⟩

/-- Claim C1, amended — for every well-formed noun `root ++ "o" [++ "j"]
[++ "n"]` (root at least 2 letters of the valid alphabet) *except* the four
correlative pronouns of noun shape (`kio`, `tio`, `ĉio`, `nenio`, in any
letter case), `analyzeWord` returns part of speech Noun with
`morphology.root = root`, `isPlural` true iff the `j` is present and
`isAccusative` true iff the `n` is present.  (On the four excluded words the
Pronoun analyzer's 0.9 correlative confidence beats the Noun analyzer's 0.8,
see `claim_C1_counterexample`.) -/
theorem claim_C1 (root s : List Char)
    (hroot : root.all littera = true) (hlen : 2 ≤ root.length)
    (hs : s ∈ jnSuffixes)
    (hex : toLower (root ++ ['o'] ++ s) ∉
      (["kio", "tio", "ĉio", "nenio"].map String.data)) :
    ∃ r, analyzeWord (some (root ++ ['o'] ++ s)) = .ok r ∧
      r.partOfSpeech = .Noun ∧
      r.morphology = some { isPlural := s.contains 'j'
                            isAccusative := s.contains 'n'
                            root := some root } := by
  have hs4 := jn_cases s hs
  set w := root ++ ['o'] ++ s with hw
  have hwlen : w.length = root.length + 1 + s.length := by
    rw [hw]
    simp
    omega
  have hwne : w ≠ [] := by
    intro h0
    rw [h0] at hwlen
    simp at hwlen
    omega
  have htw : trimL w = w := trimL_of_no_ws (noun_shape_no_ws hroot hs4)
  have hnoun : nounMatch w = true := nounMatch_shape hroot hlen hs4
  have hcanon : canonicalNounShape w = true :=
    canonicalNounShape_shape hroot hlen hs4
  have hnc : calculateConfidence .Noun w = if 5 < w.length then 1 else 4 / 5 :=
    calcConf_noun_eval hcanon
  have hnc45 : 4 / 5 ≤ calculateConfidence .Noun w := by
    rw [hnc]
    split_ifs <;> norm_num
  -- the noun analyzer's entry in the collected matches
  have hxmem : (nounAnalyzer, calculateConfidence PartOfSpeech.Noun w) ∈
      collectMatches w := by
    refine List.mem_filterMap.mpr ⟨nounAnalyzer, ?_, ?_⟩
    · simp [ALL_MORPHOLOGICAL_ANALYZERS]
    · rw [show nounAnalyzer.matchP w = true from hnoun, if_pos rfl]
      rfl
  -- every other matching analyzer scores strictly below the noun score
  have hmax : ∀ y ∈ collectMatches w,
      y ≠ (nounAnalyzer, calculateConfidence PartOfSpeech.Noun w) →
      y.2 < calculateConfidence PartOfSpeech.Noun w := by
    rintro ⟨a, q⟩ hy hne
    obtain ⟨hamem, hamatch, hq⟩ := mem_collectMatches hy
    simp only at hq
    subst hq
    simp only [ALL_MORPHOLOGICAL_ANALYZERS, List.mem_cons,
      List.not_mem_nil, or_false] at hamem
    rcases hamem with rfl | rfl | rfl | rfl | rfl | rfl | rfl | rfl | rfl | rfl
    · exact absurd rfl hne
    · calc calculateConfidence verbAnalyzer.partOfSpeech w
          ≤ 7 / 10 := calcConf_verb_le (canonicalVerbShape_shape_false hs4)
        _ < 4 / 5 := by norm_num
        _ ≤ _ := hnc45
    · calc calculateConfidence adjectiveAnalyzer.partOfSpeech w
          ≤ 7 / 10 :=
            calcConf_adjective_le (canonicalAdjectiveShape_shape_false hs4)
        _ < 4 / 5 := by norm_num
        _ ≤ _ := hnc45
    · calc calculateConfidence adverbAnalyzer.partOfSpeech w
          = 1 / 2 := calcConf_adverb_eval (canonicalAdverbShape_shape_false hs4)
        _ < 4 / 5 := by norm_num
        _ ≤ _ := hnc45
    · -- the article matches only the two-letter word `la`
      exfalso
      have hart : toLower w = ['l', 'a'] := by
        have h2 : articleMatch w = true := hamatch
        simpa [articleMatch] using h2
      have hw2 : w.length = 2 := by
        have h3 := congrArg List.length hart
        simpa [toLower] using h3
      omega
    · calc calculateConfidence conjunctionAnalyzer.partOfSpeech w
          = 1 / 2 := calcConf_conjunction_eval w
        _ < 4 / 5 := by norm_num
        _ ≤ _ := hnc45
    · calc calculateConfidence interjectionAnalyzer.partOfSpeech w
          = 1 / 2 := calcConf_interjection_eval w
        _ < 4 / 5 := by norm_num
        _ ≤ _ := hnc45
    · rw [show calculateConfidence numeralAnalyzer.partOfSpeech w =
          calculateConfidence PartOfSpeech.Numeral w from rfl,
        calcConf_numeral_eval]
      split_ifs with hcon
      · have h6 : w.length = 6 := by
          rw [hw]
          exact basic_contains_len hs4 hcon
        rw [hnc, if_pos (by omega)]
        norm_num
      · calc (1 : ℚ) / 2 < 4 / 5 := by norm_num
          _ ≤ _ := hnc45
    · calc calculateConfidence prepositionAnalyzer.partOfSpeech w
          = 1 / 2 := calcConf_preposition_eval w
        _ < 4 / 5 := by norm_num
        _ ≤ _ := hnc45
    · rw [show calculateConfidence pronounAnalyzer.partOfSpeech w =
          calculateConfidence PartOfSpeech.Pronoun w from rfl,
        calcConf_pronoun_eval]
      split_ifs with hcon
      · exact absurd (correl_contains_mem hlen hs4 hcon) hex
      · calc (1 : ℚ) / 2 < 4 / 5 := by norm_num
          _ ≤ _ := hnc45
  have hwart : w ≠ "Article".data := by
    intro hcl
    rw [hcl] at hnoun
    exact absurd hnoun (by decide)
  have hbest := analyzeCore_best w getDefaultOptions nounAnalyzer hxmem hmax hwart
  have hmorph : nounAnalyzer.extractMorphology w getDefaultOptions =
      { isPlural := s.contains 'j'
        isAccusative := s.contains 'n'
        root := some root } := by
    show nounExtractMorphology w getDefaultOptions = _
    unfold nounExtractMorphology baseExtractMorphology getDefaultOptions
    simp only [Bool.not_true, Bool.false_eq_true, if_false,
      checkPlural_shape hs4, checkAccusative_shape hs4,
      nounExtractRoot_shape hs4]
  refine ⟨analyzeCore w getDefaultOptions, ?_, ?_, ?_⟩
  · simp only [analyzeWord, analyze, if_neg hwne, htw, if_neg hwne]
  · exact hbest.1
  · rw [hbest.2.1, hmorph]

/-- Witness for the amended C1 at the concrete input `"hundojn"`. -/
theorem claim_C1_witness :
    ∃ r, analyzeWord (some ("hund".data ++ ['o'] ++ ['j', 'n'])) = .ok r ∧
      r.partOfSpeech = .Noun ∧
      r.morphology = some { isPlural := ['j', 'n'].contains 'j'
                            isAccusative := ['j', 'n'].contains 'n'
                            root := some "hund".data } :=
  claim_C1 "hund".data ['j', 'n'] (by decide) (by decide) (by decide) (by decide)

/-- Counterexample to C1 as stated: `"kio"` is a well-formed noun
(root `ki`, ending `o`), yet `analyzeWord` tags it Pronoun, not Noun — the
Pronoun analyzer's correlative confidence 0.9 beats the Noun analyzer's
0.8. -/
theorem claim_C1_counterexample :
    "kio".data = "ki".data ++ ['o'] ++ [] ∧
    "ki".data.all littera = true ∧ 2 ≤ "ki".data.length ∧
    ([] : List Char) ∈ jnSuffixes ∧
    posOf (analyzeWord (some "kio".data)) = some PartOfSpeech.Pronoun ∧
    posOf (analyzeWord (some "kio".data)) ≠ some PartOfSpeech.Noun := by
  have hxmem2 : (pronounAnalyzer,
      calculateConfidence pronounAnalyzer.partOfSpeech "kio".data) ∈
      collectMatches "kio".data := by
    refine List.mem_filterMap.mpr ⟨pronounAnalyzer, ?_, ?_⟩
    · simp [ALL_MORPHOLOGICAL_ANALYZERS]
    · rw [show pronounAnalyzer.matchP "kio".data = true from by decide,
        if_pos rfl]
  have hnp : calculateConfidence PartOfSpeech.Noun "kio".data <
      calculateConfidence PartOfSpeech.Pronoun "kio".data := by
    rw [calcConf_noun_eval (by decide), calcConf_pronoun_eval,
      if_neg (by decide), if_pos (by decide)]
    norm_num
  have hmax2 : ∀ y ∈ collectMatches "kio".data,
      y ≠ (pronounAnalyzer,
        calculateConfidence pronounAnalyzer.partOfSpeech "kio".data) →
      y.2 < calculateConfidence pronounAnalyzer.partOfSpeech "kio".data := by
    rintro ⟨a, q⟩ hy hne
    obtain ⟨hamem, hamatch, hq⟩ := mem_collectMatches hy
    simp only at hq
    subst hq
    simp only [ALL_MORPHOLOGICAL_ANALYZERS, List.mem_cons,
      List.not_mem_nil, or_false] at hamem
    rcases hamem with rfl | rfl | rfl | rfl | rfl | rfl | rfl | rfl | rfl | rfl
    · exact hnp
    · exact absurd (show verbMatch "kio".data = true from hamatch) (by decide)
    · exact absurd (show adjectiveMatch "kio".data = true from hamatch)
        (by decide)
    · exact absurd (show adverbMatch "kio".data = true from hamatch)
        (by decide)
    · exact absurd (show articleMatch "kio".data = true from hamatch)
        (by decide)
    · exact absurd (show conjunctionMatch "kio".data = true from hamatch)
        (by decide)
    · exact absurd (show interjectionMatch "kio".data = true from hamatch)
        (by decide)
    · exact absurd (show numeralMatch "kio".data = true from hamatch)
        (by decide)
    · exact absurd (show prepositionMatch "kio".data = true from hamatch)
        (by decide)
    · exact absurd rfl hne
  have hbest := analyzeCore_best "kio".data getDefaultOptions pronounAnalyzer
    hxmem2 hmax2 (by decide)
  have hok : analyzeWord (some "kio".data) =
      .ok (analyzeCore "kio".data getDefaultOptions) := rfl
  have hposOf : posOf (analyzeWord (some "kio".data)) =
      some (analyzeCore "kio".data getDefaultOptions).partOfSpeech := by
    rw [hok]
    rfl
  refine ⟨by decide, by decide, by decide, by decide, ?_, ?_⟩
  · rw [hposOf, hbest.1]
    rfl
  · rw [hposOf, hbest.1]
    decide

end EsperantoAnalyzer
